import Mathlib

/-!
# Verification of the cascii frame conversion and rendering pipeline

Shallow embedding of the core functions of `src/lib.rs`:

* `char_for` (lib.rs:1619) — luminance → ramp character quantization;
* `AsciiConverter::with_config` (lib.rs:695) — ramp validation;
* `write_cframe_binary` (lib.rs:1529) — binary cframe encoder;
* `read_cframe_to_frame_data` (lib.rs:1546) — binary cframe decoder;
* `read_txt_to_frame_data` (lib.rs:1589) — plain-text frame reader;
* `render_ascii_frame_to_rgb` (lib.rs:555) — glyph-atlas frame renderer.

Modelling conventions:

* Rust `u32` arithmetic is modelled on `Nat` with an explicit `% 2^32`
  (`wrap32`), i.e. the wrapping semantics of a release-profile build;
  `u8` values are `Nat`s below 256; `usize` quantities (slice lengths,
  running indices) are plain `Nat`s — a 64-bit `usize` cannot overflow for
  any input a real address space can hold.
* A Rust panic (out-of-bounds slice index) is modelled by `Option`:
  `none` is a panic, `some` a normal return.  Fallible functions that
  return `Result` in the source return `Except String` here; a function
  that can both fail and panic returns `Option (Except String _)`.
* Strings are `List Char` (Rust `char` ≅ Lean `Char`); byte buffers are
  `List Nat` with entries below 256.
* The `f32` alpha-coverage values of the glyph atlas are modelled as `ℚ`.
  None of the properties proved here depend on the rounding of `f32`
  multiplication, only on the guard structure around it.
-/

/-- Wrapping 32-bit arithmetic: the value of a Rust `u32` computation
(release profile, overflow wraps). -/
def wrap32 (n : Nat) : Nat := n % 4294967296

/-- In-memory form of a decoded frame (`AsciiFrameData` in lib.rs). -/
structure AsciiFrameData where
  ascii_text : List Char
  width_chars : Nat
  height_chars : Nat
  rgb_colors : List Nat
deriving DecidableEq, Repr

/-! ## Luminance → character mapping (`char_for`, lib.rs:1619-1632) -/

/-- The ramp index computed by `char_for` for `luma ≥ threshold`:
`effective_luma` and `range` via saturating subtraction (which is plain
`Nat` subtraction), the product `effective_luma * num_chars_minus_1` in
wrapping `u32` arithmetic, `rampLen` truncated to `u32` by the
`len() as u32` cast. -/
def chosenIndex (luma threshold rampLen : Nat) : Nat :=
  min (wrap32 ((luma - threshold) * (wrap32 rampLen - 1)) / max (255 - threshold) 1)
    (wrap32 rampLen - 1)

/-- Model of `char_for` (lib.rs:1619).  `none` models the panic of
`ascii_chars[idx]` when the ramp is empty. -/
def charFor (luma threshold : Nat) (asciiChars : List Char) : Option Char :=
  if luma < threshold then some ' '
  else asciiChars[chosenIndex luma threshold asciiChars.length]?

/-! ## Ramp validation (`AsciiConverter::with_config`, lib.rs:695-701) -/

/-- Model of `String::is_ascii` on the ramp: every char is ASCII. -/
def rampIsAscii (asciiChars : List Char) : Bool :=
  asciiChars.all (fun c => c.toNat ≤ 127)

/-- Model of `AsciiConverter::with_config` (lib.rs:695): the only
validation performed on the configured ramp. -/
def withConfig (asciiChars : List Char) : Except String (List Char) :=
  if !(rampIsAscii asciiChars) then
    Except.error "Config contains non-ASCII characters in ascii_chars field"
  else Except.ok asciiChars

/-- The index formula stated by the spec for the luminance mapping, in
exact integer arithmetic:
`min ((L - threshold) * (ramp_len - 1) / max (255 - threshold) 1, ramp_len - 1)`.
This is the spec's words, to be compared with `chosenIndex` from the code. -/
def specIndex (luma threshold rampLen : Nat) : Nat :=
  min ((luma - threshold) * (rampLen - 1) / max (255 - threshold) 1) (rampLen - 1)

/-- A 33554433-character ramp on which the wrapping `u32` product inside
`char_for` overflows: `255 * 33554432 = 8556380160 ≥ 2^32`.  The code's
index lands on the 'b' at position 16711422, the spec's exact formula on
the 'c' at position 33554432. -/
def bigRampC3 : List Char :=
  List.replicate 16711422 'a' ++ 'b' :: (List.replicate 16843009 'a' ++ ['c'])

/-- A 33554433-character uniform ramp witnessing non-monotonicity of the
code's index: at luminance 128 the `u32` product `128 * 33554432 = 2^32`
wraps to 0, while at luminance 127 it does not wrap. -/
def bigRampC4 : List Char := List.replicate 33554433 'a'

/-! ## Frame codec (`write_cframe_binary`, `read_cframe_to_frame_data`,
`read_txt_to_frame_data`, lib.rs:1529-1610) -/

/-- Little-endian byte serialization of a `u32` (`u32::to_le_bytes`). -/
def le32 (n : Nat) : List Nat :=
  [n % 256, n / 256 % 256, n / 65536 % 256, n / 16777216 % 256]

/-- Number of non-newline characters of a text, i.e. the number of
4-byte records `write_cframe_binary` attempts to write. -/
def nonNewlineCount : List Char → Nat
  | [] => 0
  | c :: cs => if c = '\n' then nonNewlineCount cs else nonNewlineCount cs + 1

/-- The body loop of `write_cframe_binary` (lib.rs:1535-1541): a 4-byte
record `[char, r, g, b]` per non-newline character, colors read at
offset `3 * char_idx` of `rgb_data`.  `none` models the panic of
`rgb_data[rgb_offset]` when the color buffer is too short. -/
def writeCframeBody (rgbData : List Nat) : List Char → Nat → Option (List Nat)
  | [], _ => some []
  | ch :: rest, charIdx =>
    if ch = '\n' then writeCframeBody rgbData rest charIdx
    else do
      let r ← rgbData[charIdx * 3]?
      let g ← rgbData[charIdx * 3 + 1]?
      let b ← rgbData[charIdx * 3 + 2]?
      let tail ← writeCframeBody rgbData rest (charIdx + 1)
      some (ch.toNat % 256 :: r :: g :: b :: tail)

/-- Model of `write_cframe_binary` (lib.rs:1529): the byte sequence
written to the cframe file (8-byte header plus records); `none` models a
panic.  File-system errors are outside the model. -/
def writeCframeBinary (width height : Nat) (asciiContent : List Char)
    (rgbData : List Nat) : Option (List Nat) := do
  let body ← writeCframeBody rgbData asciiContent 0
  some (le32 width ++ le32 height ++ body)

/-- `u32::from_le_bytes` on the 4 bytes of `data` starting at index `i`;
`none` models an out-of-bounds read. -/
def readU32LE (data : List Nat) (i : Nat) : Option Nat := do
  let b0 ← data[i]?
  let b1 ← data[i + 1]?
  let b2 ← data[i + 2]?
  let b3 ← data[i + 3]?
  some (b0 + b1 * 256 + b2 * 65536 + b3 * 16777216)

/-- One row of the decode loop of `read_cframe_to_frame_data`
(lib.rs:1569-1576): `n` columns remaining, current column `col`.  The
record index `(row * width + col) * 4` is `u32` arithmetic; `none`
models an out-of-bounds `data[idx]` panic. -/
def readRowAux (data : List Nat) (width row : Nat) :
    Nat → Nat → Option (List Char × List Nat)
  | 0, _ => some ([], [])
  | n + 1, col => do
    let c ← data[8 + wrap32 ((row * width + col) * 4)]?
    let r ← data[8 + wrap32 ((row * width + col) * 4) + 1]?
    let g ← data[8 + wrap32 ((row * width + col) * 4) + 2]?
    let b ← data[8 + wrap32 ((row * width + col) * 4) + 3]?
    let (cs, rgbs) ← readRowAux data width row n (col + 1)
    some (Char.ofNat c :: cs, r :: g :: b :: rgbs)

/-- The row loop of `read_cframe_to_frame_data` (lib.rs:1568-1578): `n`
rows remaining, current row `row`; a newline is appended after every
row. -/
def readRowsAux (data : List Nat) (width : Nat) :
    Nat → Nat → Option (List Char × List Nat)
  | 0, _ => some ([], [])
  | n + 1, row => do
    let (cs, rgbs) ← readRowAux data width row width 0
    let (cs2, rgbs2) ← readRowsAux data width n (row + 1)
    some (cs ++ '\n' :: cs2, rgbs ++ rgbs2)

/-- Model of `read_cframe_to_frame_data` (lib.rs:1546-1586):
`some (Except.error _)` is a returned `Err`, `some (Except.ok _)` a
decoded frame, `none` a panic.  `expected_body` is the wrapping `u32`
product `width * height * 4`, as in the source. -/
def readCframeToFrameData (data : List Nat) : Option (Except String AsciiFrameData) :=
  if data.length < 8 then some (Except.error "cframe file too small")
  else do
    let width ← readU32LE data 0
    let height ← readU32LE data 4
    if data.length < 8 + wrap32 (width * height * 4) then
      some (Except.error "cframe file truncated")
    else do
      let (text, colors) ← readRowsAux data width height 0
      some (Except.ok ⟨text, width, height, colors⟩)

/-- `str::split('\n')`: the parts of `content` between newline
characters (never empty; bordering newlines produce empty parts). -/
def splitNl : List Char → List (List Char)
  | [] => [[]]
  | c :: cs =>
    if c = '\n' then [] :: splitNl cs
    else
      match splitNl cs with
      | [] => [[c]]
      | l :: ls => (c :: l) :: ls

/-- Strip the single carriage return preceding a removed line feed, as
`str::lines` does for `\r\n` line endings. -/
def stripCr (l : List Char) : List Char :=
  if l.getLast? = some '\r' then l.dropLast else l

/-- Model of `str::lines`: split on `'\n'`, strip a `'\r'` before each
removed `'\n'`, and drop the final empty part (which is produced exactly
by a trailing newline or by empty input). -/
def strLines (content : List Char) : List (List Char) :=
  if (splitNl content).getLast? = some [] then
    ((splitNl content).dropLast).map stripCr
  else
    ((splitNl content).dropLast).map stripCr ++ [(splitNl content).getLastD []]

/-- `Vec::join("\n")` of the collected lines. -/
def joinLines : List (List Char) → List Char
  | [] => []
  | [l] => l
  | l :: l2 :: ls => l ++ '\n' :: joinLines (l2 :: ls)

/-- Byte length of a line (`str::len`), the sum of the UTF-8 sizes of
its characters. -/
def utf8Len (l : List Char) : Nat := (l.map (fun c => c.utf8Size)).sum

/-- Model of `read_txt_to_frame_data` (lib.rs:1589-1610): fails only on
empty input; otherwise the width is the byte length of the first line
`as u32` (truncated mod `2^32`), the height the number of lines
`as u32` (likewise truncated), the text the lines rejoined verbatim
with a trailing newline, and the colors empty. -/
def readTxtToFrameData (content : List Char) : Except String AsciiFrameData :=
  if strLines content = [] then Except.error "empty frame file"
  else
    Except.ok ⟨joinLines (strLines content) ++ ['\n'],
      wrap32 (utf8Len ((strLines content).headD [])),
      wrap32 ((strLines content).length), []⟩

/-- The text shape reconstructed by a cframe decode, as the spec states
the round trip: the original cell characters with a newline appended
after every `w`-th character — `n` rows of `w` characters each. -/
def withRowNewlines (w : Nat) : Nat → List Char → List Char
  | 0, _ => []
  | n + 1, cs => cs.take w ++ '\n' :: withRowNewlines w n (cs.drop w)

/-- Round-trip counterexample text: a single row of `2^30 + 1` cells,
'A' everywhere except a final 'B'.  The cell index of the 'B' is
`2^30`, whose record offset `4 * 2^30 = 2^32` wraps to 0 in the
decoder's `u32` index arithmetic. -/
def bigText : List Char := List.replicate 1073741824 'A' ++ ['B']

/-- Round-trip counterexample colors: all black,
`3 * (2^30 + 1) = 3221225475` bytes. -/
def bigColors : List Nat := List.replicate 3221225475 0

/-! ## Frame renderer (`render_ascii_frame_to_rgb`, lib.rs:555-625) -/

/-- A glyph's alpha-coverage bitmap (`GlyphBitmap` in lib.rs); the `f32`
coverage values are modelled as rationals. -/
structure GlyphBitmap where
  alpha : List ℚ

/-- The glyph atlas (`GlyphAtlas` in lib.rs): `glyphs` models the
`HashMap<u8, GlyphBitmap>` lookup `atlas.glyphs.get(&byte)`. -/
structure GlyphAtlas where
  glyphs : Nat → Option GlyphBitmap
  cell_width : Nat
  cell_height : Nat

/-- The `as u8` cast of an `f32` blend product: saturating to `0..=255`,
truncating the fraction. -/
def f32ToU8 (q : ℚ) : Nat := min 255 (Int.toNat ⌊q⌋)

/-- One output dimension, rounded up to the next even number in `u32`
arithmetic (lib.rs:560-569): the product wraps, and so does the `+= 1`. -/
def evenDim (n : Nat) : Nat :=
  if wrap32 n % 2 = 0 then wrap32 n else wrap32 (wrap32 n + 1)

/-- The rendered pixel width `pixel_w` of a frame (lib.rs:560,564-566). -/
def renderPixelW (frame : AsciiFrameData) (atlas : GlyphAtlas) : Nat :=
  evenDim (frame.width_chars * atlas.cell_width)

/-- The rendered pixel height `pixel_h` of a frame (lib.rs:561,567-569). -/
def renderPixelH (frame : AsciiFrameData) (atlas : GlyphAtlas) : Nat :=
  evenDim (frame.height_chars * atlas.cell_height)

/-- `buffer[i] = v`; `none` models the panic of an out-of-bounds index
assignment. -/
def setByte (buffer : List Nat) (i v : Nat) : Option (List Nat) :=
  if i < buffer.length then some (buffer.set i v) else none

/-- The inner `gx` loop of the glyph blit (lib.rs:603-616): `n` columns
of the glyph remain, starting at `gx`.  Pixel coordinates and the buffer
offset are `u32` arithmetic; pixels outside the buffer are skipped by
the `px ≥ pixel_w ∨ py ≥ pixel_h` guard; zero-alpha pixels are
skipped. -/
def blitRowAux (alpha : List ℚ) (cw pw ph r g b baseX baseY gy : Nat) :
    Nat → Nat → List Nat → Option (List Nat)
  | 0, _, buffer => some buffer
  | n + 1, gx, buffer =>
    if wrap32 (baseX + gx) ≥ pw ∨ wrap32 (baseY + gy) ≥ ph then
      blitRowAux alpha cw pw ph r g b baseX baseY gy n (gx + 1) buffer
    else do
      let a ← alpha[wrap32 (gy * cw + gx)]?
      if 0 < a then do
        let buf1 ← setByte buffer
          (wrap32 ((wrap32 (baseY + gy) * pw + wrap32 (baseX + gx)) * 3))
          (f32ToU8 (r * a))
        let buf2 ← setByte buf1
          (wrap32 ((wrap32 (baseY + gy) * pw + wrap32 (baseX + gx)) * 3) + 1)
          (f32ToU8 (g * a))
        let buf3 ← setByte buf2
          (wrap32 ((wrap32 (baseY + gy) * pw + wrap32 (baseX + gx)) * 3) + 2)
          (f32ToU8 (b * a))
        blitRowAux alpha cw pw ph r g b baseX baseY gy n (gx + 1) buf3
      else blitRowAux alpha cw pw ph r g b baseX baseY gy n (gx + 1) buffer

/-- The outer `gy` loop of the glyph blit (lib.rs:602-617). -/
def blitCellAux (alpha : List ℚ) (cw ch pw ph r g b baseX baseY : Nat) :
    Nat → Nat → List Nat → Option (List Nat)
  | 0, _, buffer => some buffer
  | n + 1, gy, buffer => do
    let buf1 ← blitRowAux alpha cw pw ph r g b baseX baseY gy cw 0 buffer
    blitCellAux alpha cw ch pw ph r g b baseX baseY n (gy + 1) buf1

/-- The per-cell color selection (lib.rs:587-595): the grid's stored RGB
triple when colors are enabled and in range, opaque white otherwise.
The guard makes the `getD` defaults unreachable. -/
def rgbSel (useColors : Bool) (colors : List Nat) (charIdx : Nat) :
    Nat × Nat × Nat :=
  if useColors = true ∧ charIdx * 3 + 2 < colors.length then
    (colors.getD (charIdx * 3) 0, colors.getD (charIdx * 3 + 1) 0,
      colors.getD (charIdx * 3 + 2) 0)
  else (255, 255, 255)

/-- The character loop of the renderer (lib.rs:577-622): newlines advance
the row, cells whose byte has no atlas entry are skipped.  `row` and
`col` are `u32` counters. -/
def renderLoop (atlas : GlyphAtlas) (useColors : Bool) (colors : List Nat)
    (pw ph : Nat) :
    List Char → Nat → Nat → Nat → List Nat → Option (List Nat)
  | [], _, _, _, buffer => some buffer
  | ch :: rest, charIdx, row, col, buffer =>
    if ch = '\n' then
      renderLoop atlas useColors colors pw ph rest charIdx
        (wrap32 (row + 1)) 0 buffer
    else
      match atlas.glyphs (ch.toNat % 256) with
      | none =>
        renderLoop atlas useColors colors pw ph rest (charIdx + 1) row
          (wrap32 (col + 1)) buffer
      | some gb => do
        let buf1 ← blitCellAux gb.alpha atlas.cell_width atlas.cell_height
          pw ph (rgbSel useColors colors charIdx).1
          (rgbSel useColors colors charIdx).2.1
          (rgbSel useColors colors charIdx).2.2
          (wrap32 (col * atlas.cell_width))
          (wrap32 (row * atlas.cell_height)) atlas.cell_height 0 buffer
        renderLoop atlas useColors colors pw ph rest (charIdx + 1) row
          (wrap32 (col + 1)) buf1

/-- Model of `render_ascii_frame_to_rgb` (lib.rs:555-625): the RGB24
buffer, initialized to zero/black, sized `pixel_w * pixel_h * 3` in
`u32` arithmetic; `none` models a panic. -/
def render_ascii_frame_to_rgb (frame : AsciiFrameData) (atlas : GlyphAtlas)
    (use_colors : Bool) : Option (List Nat) :=
  renderLoop atlas use_colors frame.rgb_colors
    (renderPixelW frame atlas) (renderPixelH frame atlas)
    frame.ascii_text 0 0 0
    (List.replicate
      (wrap32 (renderPixelW frame atlas * renderPixelH frame atlas * 3)) 0)

/-- The well-formed in-memory text of a grid: each row followed by a
newline, as the Luminance Mapper produces it. -/
def rowsJoin : List (List Char) → List Char
  | [] => []
  | rrow :: rest => rrow ++ '\n' :: rowsJoin rest

/-- C7 counterexample frame: `width_chars = 2^16` with empty text. -/
def cexFrameC7 : AsciiFrameData := ⟨[], 65536, 1, []⟩

/-- C7 counterexample atlas: `cell_width = 2^16`, so that
`width_chars * cell_width = 2^32` wraps to 0. -/
def cexAtlasC7 : GlyphAtlas := ⟨fun _ => none, 65536, 1⟩

/-- C10 counterexample frame: a 1×1 grid with empty text. -/
def cexFrameC10 : AsciiFrameData := ⟨[], 1, 1, []⟩

/-- C10 counterexample atlas: `cell_width = 2^31`, so that the buffer
size `pixel_w * pixel_h * 3 = 3 * 2^32` wraps to 0. -/
def cexAtlasC10 : GlyphAtlas := ⟨fun _ => none, 2147483648, 1⟩

/-- A small concrete frame: a 1×1 grid holding the character `A`. -/
def witFrameC10 : AsciiFrameData := ⟨['A', '\n'], 1, 1, [10, 20, 30]⟩

/-- A small concrete atlas with a 2×2 glyph for the byte of `A`. -/
def witAtlasC10 : GlyphAtlas :=
  ⟨fun b => if b = 65 then some ⟨[1, 0, 0, 1]⟩ else none, 2, 2⟩

/-- The byte positions of the even-rounding padding region: bytes of
pixels beyond `width_chars * cell_width` columns or
`height_chars * cell_height` rows. -/
def padProt (frame : AsciiFrameData) (atlas : GlyphAtlas) (i : Nat) : Prop :=
  ∃ px py o, px < renderPixelW frame atlas ∧ py < renderPixelH frame atlas ∧
    o < 3 ∧
    (frame.width_chars * atlas.cell_width ≤ px ∨
      frame.height_chars * atlas.cell_height ≤ py) ∧
    i = (py * renderPixelW frame atlas + px) * 3 + o

/-- A concrete 1×1 frame whose text is `rowsJoin [[A]]`. -/
def witFrameC7 : AsciiFrameData := ⟨rowsJoin [['A']], 1, 1, [10, 20, 30]⟩

/-- A concrete atlas with a 1×1 glyph for the byte of `A`, so that both
rendered dimensions round up from 1 to 2 and a padding row and column
exist. -/
def witAtlasC7 : GlyphAtlas :=
  ⟨fun b => if b = 65 then some ⟨[1]⟩ else none, 1, 1⟩

/-! ## Theorems -/

theorem bigRampC3_length : bigRampC3.length = 33554433 := by
  unfold bigRampC3
  rw [List.length_append, List.length_replicate, List.length_cons,
    List.length_append, List.length_replicate, List.length_cons,
    List.length_nil]

/-- Claim C3, counterexample.  At luminance 255, threshold 0, and the
33554433-character ASCII ramp `bigRampC3`, the code emits the character
at index 16711422 (a 'b'), while the spec's formula
`min ((L - threshold)*(ramp_len-1) / range, ramp_len-1)` selects index
33554432 (a 'c'): the `u32` product `255 * 33554432` wraps modulo `2^32`
in `char_for`, so the mapping does not emit `ramp[index]` for the stated
`index`. -/
theorem casciiC3_cex :
    charFor 255 0 bigRampC3 = some 'b' ∧
    bigRampC3[specIndex 255 0 bigRampC3.length]? = some 'c' := by
  constructor
  · show (if (255 : Nat) < 0 then some ' '
      else bigRampC3[chosenIndex 255 0 bigRampC3.length]?) = some 'b'
    rw [if_neg (by decide), bigRampC3_length]
    have hidx : chosenIndex 255 0 33554433 = 16711422 := by decide
    rw [hidx, bigRampC3,
      List.getElem?_append_right (by rw [List.length_replicate]),
      List.length_replicate, Nat.sub_self]
    exact List.getElem?_cons_zero
  · rw [bigRampC3_length]
    have hidx : specIndex 255 0 33554433 = 33554432 := by decide
    rw [hidx, bigRampC3,
      List.getElem?_append_right (by rw [List.length_replicate]; decide),
      List.length_replicate]
    show ('b' :: (List.replicate 16843009 'a' ++ ['c']))[16843010]? = some 'c'
    rw [show (16843010 : Nat) = 16843009 + 1 by decide]
    rw [List.getElem?_cons_succ,
      List.getElem?_append_right (by rw [List.length_replicate]),
      List.length_replicate, Nat.sub_self]
    exact List.getElem?_cons_zero

/-- Claim C3, amended: the spec's description of `char_for` is exact
provided the intermediate product `(L - threshold) * (ramp_len - 1)` fits
in a `u32` (and `ramp_len < 2^32`): below the threshold a space is
emitted, otherwise the character at the spec's index, which always
exists. -/
theorem casciiC3_amended (luma t : Nat) (ramp : List Char)
    (hne : ramp ≠ []) (hlen : ramp.length < 4294967296)
    (hov : (luma - t) * (ramp.length - 1) < 4294967296) :
    (luma < t → charFor luma t ramp = some ' ') ∧
    (t ≤ luma → ∃ c, ramp[specIndex luma t ramp.length]? = some c ∧
      charFor luma t ramp = some c) := by
  constructor
  · intro h
    simp [charFor, h]
  · intro h
    have hidx : chosenIndex luma t ramp.length = specIndex luma t ramp.length := by
      unfold chosenIndex specIndex wrap32
      rw [Nat.mod_eq_of_lt hlen, Nat.mod_eq_of_lt hov]
    have hlt : specIndex luma t ramp.length < ramp.length := by
      have h0 : 0 < ramp.length := List.length_pos.mpr hne
      unfold specIndex
      have := Nat.min_le_right
        ((luma - t) * (ramp.length - 1) / max (255 - t) 1) (ramp.length - 1)
      omega
    have hc := List.getElem?_eq_getElem hlt
    refine ⟨_, hc, ?_⟩
    show (if luma < t then some ' ' else ramp[chosenIndex luma t ramp.length]?) = _
    rw [if_neg (by omega), hidx, hc]

/-- Witness for `casciiC3_amended` at concrete inputs: luminance 10 below
threshold 128 maps to a space, and luminance 200 above threshold 100 maps
to the ramp character selected by the spec's index formula. -/
theorem casciiC3_witness :
    charFor 10 128 ['a', 'b', 'c'] = some ' ' ∧
    ∃ c, (['a', 'b', 'c'])[specIndex 200 100 (['a', 'b', 'c'] : List Char).length]? = some c ∧
      charFor 200 100 ['a', 'b', 'c'] = some c :=
  ⟨(casciiC3_amended 10 128 ['a', 'b', 'c'] (by decide) (by decide) (by decide)).1
      (by decide),
    (casciiC3_amended 200 100 ['a', 'b', 'c'] (by decide) (by decide) (by decide)).2
      (by decide)⟩

theorem bigRampC4_length : bigRampC4.length = 33554433 := by
  unfold bigRampC4
  rw [List.length_replicate]

/-- Claim C4, counterexample.  On the 33554433-character ramp
`bigRampC4`, with threshold 0, luminances `128 ≥ 127 ≥ 0`, the index
chosen for 128 is 0 (the `u32` product `128 * 33554432 = 2^32` wraps
to 0) while the index chosen for 127 is 16711422: the mapping is not
monotonic. -/
theorem casciiC4_cex :
    (0 : Nat) ≤ 127 ∧ (127 : Nat) ≤ 128 ∧
    chosenIndex 128 0 bigRampC4.length < chosenIndex 127 0 bigRampC4.length := by
  refine ⟨by decide, by decide, ?_⟩
  rw [bigRampC4_length]
  decide

/-- Claim C4, amended: monotonicity of the chosen ramp index holds
whenever the intermediate `u32` product does not overflow, i.e. when
`(L1 - t) * (ramp_len - 1) < 2^32` and `ramp_len < 2^32`. -/
theorem casciiC4_amended (t L1 L2 : Nat) (ramp : List Char)
    (h21 : L2 ≤ L1) (ht : t ≤ L2)
    (hlen : ramp.length < 4294967296)
    (hov : (L1 - t) * (ramp.length - 1) < 4294967296) :
    chosenIndex L2 t ramp.length ≤ chosenIndex L1 t ramp.length := by
  simp only [chosenIndex, wrap32]
  rw [Nat.mod_eq_of_lt hlen]
  have h2 : (L2 - t) * (ramp.length - 1) ≤ (L1 - t) * (ramp.length - 1) :=
    Nat.mul_le_mul_right _ (by omega)
  rw [Nat.mod_eq_of_lt hov, Nat.mod_eq_of_lt (lt_of_le_of_lt h2 hov)]
  exact min_le_min (Nat.div_le_div_right h2) le_rfl

/-- Witness for `casciiC4_amended`: a three-character ramp, threshold 10,
luminances 200 ≥ 100 ≥ 10. -/
theorem casciiC4_witness :
    chosenIndex 100 10 (['a', 'b', 'c'] : List Char).length ≤
      chosenIndex 200 10 (['a', 'b', 'c'] : List Char).length :=
  casciiC4_amended 10 200 100 ['a', 'b', 'c'] (by decide) (by decide)
    (by decide) (by decide)

/-- Claim C8, counterexample.  The empty ramp is accepted by
`with_config` (an empty string is all-ASCII, and emptiness is never
checked), and a later per-frame conversion then panics: `char_for` with
the empty ramp indexes `ascii_chars[0]` out of bounds for any luminance
at or above the threshold. -/
theorem casciiC8_cex :
    withConfig [] = Except.ok [] ∧ charFor 255 0 [] = none :=
  ⟨rfl, by decide⟩

/-- Claim C8, amended: configuration validates only that the ramp is
all-ASCII — it succeeds exactly when every ramp character is ASCII, in
particular on the empty ramp; and per-frame conversion with the empty
ramp panics for every luminance at or above the threshold. -/
theorem casciiC8_amended (asciiChars : List Char) (luma threshold : Nat) :
    (withConfig asciiChars = Except.ok asciiChars ↔ rampIsAscii asciiChars = true) ∧
    (threshold ≤ luma → charFor luma threshold [] = none) := by
  constructor
  · unfold withConfig
    cases h : rampIsAscii asciiChars <;> simp [h]
  · intro h
    unfold charFor
    rw [if_neg (Nat.not_lt.mpr h)]
    simp

/-- Witness for `casciiC8_amended`: the empty-ramp panic at luminance
200, threshold 100. -/
theorem casciiC8_witness : charFor 200 100 [] = none :=
  (casciiC8_amended [] 200 100).2 (by decide)

/-- Claim C5, counterexample.  `write_cframe_binary` never validates the
color length: for a 1×1 grid with text "A" and a single color byte
(non-empty, length 1 ≠ 3) it panics (out-of-bounds `rgb_data` index)
instead of returning an error, and with four color bytes (length 4 ≠ 3)
it silently succeeds and writes a frame record. -/
theorem casciiC5_cex :
    writeCframeBinary 1 1 ['A'] [7] = none ∧
    writeCframeBinary 1 1 ['A'] [1, 2, 3, 4] =
      some [1, 0, 0, 0, 1, 0, 0, 0, 65, 1, 2, 3] := by
  exact ⟨by decide, by decide⟩

/-- Success characterization of the encoder body loop: it returns bytes
(rather than panicking) exactly when the color buffer covers every
non-newline character from the running offset on. -/
theorem writeCframeBody_isSome (rgbData : List Nat) :
    ∀ (text : List Char) (k : Nat),
      (writeCframeBody rgbData text k).isSome = true ↔
        (nonNewlineCount text = 0 ∨
          3 * (k + nonNewlineCount text) ≤ rgbData.length)
  | [], k => by simp [writeCframeBody, nonNewlineCount]
  | ch :: rest, k => by
    have hIH := writeCframeBody_isSome rgbData rest (k + 1)
    by_cases hch : ch = '\n'
    · rw [writeCframeBody, if_pos hch, nonNewlineCount, if_pos hch]
      exact writeCframeBody_isSome rgbData rest k
    · rw [writeCframeBody, if_neg hch, nonNewlineCount, if_neg hch]
      cases h0 : rgbData[k * 3]? with
      | none =>
        have hb0 : rgbData.length ≤ k * 3 := List.getElem?_eq_none_iff.mp h0
        simp [h0]
        omega
      | some r =>
        cases h1 : rgbData[k * 3 + 1]? with
        | none =>
          have hb1 : rgbData.length ≤ k * 3 + 1 := List.getElem?_eq_none_iff.mp h1
          simp [h0, h1]
          omega
        | some g =>
          cases h2 : rgbData[k * 3 + 2]? with
          | none =>
            have hb2 : rgbData.length ≤ k * 3 + 2 := List.getElem?_eq_none_iff.mp h2
            simp [h0, h1, h2]
            omega
          | some b =>
            have hb2 : k * 3 + 2 < rgbData.length :=
              (List.getElem?_eq_some_iff.mp h2).1
            cases ht : writeCframeBody rgbData rest (k + 1) with
            | none =>
              rw [ht] at hIH
              simp only [Option.isSome_none, Bool.false_eq_true, false_iff,
                not_or] at hIH
              simp [h0, h1, h2, ht]
              omega
            | some tail =>
              rw [ht] at hIH
              simp only [Option.isSome_some, true_iff] at hIH
              simp [h0, h1, h2, ht]
              omega

/-- Claim C5, amended: `write_cframe_binary` performs no length
validation at all.  It panics (produces no frame record) exactly when
the color buffer is shorter than 3 bytes per non-newline character, and
otherwise succeeds — in particular it silently accepts a color buffer
longer than `3 * width * height`, and it panics rather than returning an
error when the buffer is too short. -/
theorem casciiC5_amended (width height : Nat) (asciiContent : List Char)
    (rgbData : List Nat) :
    (writeCframeBinary width height asciiContent rgbData).isSome = true ↔
      3 * nonNewlineCount asciiContent ≤ rgbData.length := by
  have h := writeCframeBody_isSome rgbData asciiContent 0
  unfold writeCframeBinary
  cases ht : writeCframeBody rgbData asciiContent 0 with
  | none =>
    rw [ht] at h
    simp only [Option.isSome_none, Bool.false_eq_true, false_iff, not_or] at h
    simp
    omega
  | some body =>
    rw [ht] at h
    simp only [Option.isSome_some, true_iff] at h
    simp
    omega

/-- Claim C1, counterexample.  The 8-byte sequence
`[0,0,0,64, 1,0,0,0]` declares `width = 2^30`, `height = 1`, so it is
shorter than `8 + width*height*4`; the claim requires a truncation
error, but the truncation check computes `width * height * 4` in
wrapping `u32` arithmetic, which overflows to 0, so the check passes and
the decoder panics (out-of-bounds `data[8]`) instead of returning an
error. -/
theorem casciiC1_cex :
    readU32LE [0, 0, 0, 64, 1, 0, 0, 0] 0 = some 1073741824 ∧
    readU32LE [0, 0, 0, 64, 1, 0, 0, 0] 4 = some 1 ∧
    List.length [0, 0, 0, 64, 1, 0, 0, 0] < 8 + 1073741824 * 1 * 4 ∧
    readCframeToFrameData [0, 0, 0, 64, 1, 0, 0, 0] = none :=
  ⟨rfl, rfl, by decide, rfl⟩

/-- A successful 4-byte little-endian read ends within the data. -/
theorem readU32LE_bound {data : List Nat} {i v : Nat}
    (h : readU32LE data i = some v) : i + 3 < data.length := by
  unfold readU32LE at h
  cases h0 : data[i]? <;> rw [h0] at h <;> simp at h
  cases h1 : data[i + 1]? <;> rw [h1] at h <;> simp at h
  cases h2 : data[i + 2]? <;> rw [h2] at h <;> simp at h
  cases h3 : data[i + 3]? <;> rw [h3] at h <;> simp at h
  exact (List.getElem?_eq_some_iff.mp h3).1

/-- Claim C1, amended: for inputs shorter than 8 bytes, and for inputs
whose header product `width * height * 4` does not overflow a `u32` and
which are shorter than `8 + width*height*4`, the decoder returns a
corrupt-frame error (it neither panics nor returns a grid). -/
theorem casciiC1_amended (data : List Nat) :
    (data.length < 8 →
      readCframeToFrameData data = some (Except.error "cframe file too small")) ∧
    (∀ width height : Nat,
      readU32LE data 0 = some width → readU32LE data 4 = some height →
      width * height * 4 < 4294967296 →
      data.length < 8 + width * height * 4 →
      readCframeToFrameData data = some (Except.error "cframe file truncated")) := by
  constructor
  · intro h
    unfold readCframeToFrameData
    rw [if_pos h]
  · intro width height hw hh hov hshort
    have hlen : ¬ data.length < 8 := by
      have := readU32LE_bound hh
      omega
    unfold readCframeToFrameData
    rw [if_neg hlen, hw, hh]
    show (if data.length < 8 + wrap32 (width * height * 4) then _ else _) = _
    rw [wrap32, Nat.mod_eq_of_lt hov, if_pos hshort]

/-- Witness for `casciiC1_amended`: a bare 8-byte header declaring a
2×2 grid (16 missing body bytes) yields the truncation error. -/
theorem casciiC1_witness :
    readCframeToFrameData [2, 0, 0, 0, 2, 0, 0, 0] =
      some (Except.error "cframe file truncated") :=
  (casciiC1_amended [2, 0, 0, 0, 2, 0, 0, 0]).2 2 2 rfl rfl
    (by decide) (by decide)

/-- Claim C6, counterexample.  The ragged input "AB\nC" (second line
shorter than the first) is accepted by `read_txt_to_frame_data`: it
returns a 2×2 grid whose text still holds the ragged lines verbatim,
instead of failing with a malformed-grid error. -/
theorem casciiC6_cex :
    readTxtToFrameData ['A', 'B', '\n', 'C'] =
      Except.ok ⟨['A', 'B', '\n', 'C', '\n'], 2, 2, []⟩ := rfl

theorem splitNl_ne_nil : ∀ cs : List Char, splitNl cs ≠ []
  | [] => by simp [splitNl]
  | c :: cs => by
    rw [splitNl]
    by_cases h : c = '\n'
    · simp [h]
    · rw [if_neg h]
      cases hs : splitNl cs <;> simp

theorem splitNl_eq_single_nil {cs : List Char} (h : splitNl cs = [[]]) :
    cs = [] := by
  cases cs with
  | nil => rfl
  | cons c cs =>
    rw [splitNl] at h
    by_cases hc : c = '\n'
    · rw [if_pos hc] at h
      exact absurd (List.cons.inj h).2 (splitNl_ne_nil cs)
    · rw [if_neg hc] at h
      cases hs : splitNl cs <;> rw [hs] at h <;> simp at h

theorem noNl_splitNl : ∀ (cs : List Char) (l : List Char),
    l ∈ splitNl cs → '\n' ∉ l
  | [], l => by
    intro hmem
    rw [splitNl] at hmem
    simp at hmem
    simp [hmem]
  | c :: cs, l => by
    intro hmem
    rw [splitNl] at hmem
    by_cases hc : c = '\n'
    · rw [if_pos hc] at hmem
      rcases List.mem_cons.mp hmem with h | h
      · simp [h]
      · exact noNl_splitNl cs l h
    · rw [if_neg hc] at hmem
      cases hs : splitNl cs with
      | nil => exact absurd hs (splitNl_ne_nil cs)
      | cons l0 ls =>
        rw [hs] at hmem
        rcases List.mem_cons.mp hmem with h | h
        · subst h
          intro hin
          rcases List.mem_cons.mp hin with h | h
          · exact hc h.symm
          · exact noNl_splitNl cs l0 (hs ▸ List.mem_cons_self l0 ls) h
        · exact noNl_splitNl cs l (hs ▸ List.mem_cons_of_mem l0 h)

theorem noNl_stripCr {l : List Char} (h : '\n' ∉ l) : '\n' ∉ stripCr l := by
  unfold stripCr
  by_cases hl : l.getLast? = some '\r'
  · rw [if_pos hl]
    intro hmem
    exact h (List.dropLast_sublist l |>.mem hmem)
  · rw [if_neg hl]
    exact h

theorem noNl_strLines {cs : List Char} {l : List Char}
    (h : l ∈ strLines cs) : '\n' ∉ l := by
  unfold strLines at h
  by_cases hlast : (splitNl cs).getLast? = some []
  · rw [if_pos hlast] at h
    obtain ⟨l0, hl0, rfl⟩ := List.mem_map.mp h
    exact noNl_stripCr (noNl_splitNl cs l0 (List.dropLast_sublist _ |>.mem hl0))
  · rw [if_neg hlast] at h
    rcases List.mem_append.mp h with h | h
    · obtain ⟨l0, hl0, rfl⟩ := List.mem_map.mp h
      exact noNl_stripCr (noNl_splitNl cs l0 (List.dropLast_sublist _ |>.mem hl0))
    · rw [List.mem_singleton.mp h]
      have hmem : (splitNl cs).getLastD [] ∈ splitNl cs := by
        rw [List.getLastD_eq_getLast?]
        cases hg : (splitNl cs).getLast? with
        | none =>
          exact absurd (List.getLast?_eq_none_iff.mp hg) (splitNl_ne_nil cs)
        | some x =>
          simp only [Option.getD_some]
          exact List.mem_of_getLast?_eq_some hg
      exact noNl_splitNl cs _ hmem

theorem strLines_eq_nil_iff {cs : List Char} : strLines cs = [] ↔ cs = [] := by
  constructor
  · intro h
    unfold strLines at h
    by_cases hlast : (splitNl cs).getLast? = some []
    · rw [if_pos hlast] at h
      have hdrop : (splitNl cs).dropLast = [] := List.map_eq_nil_iff.mp h
      cases hs : splitNl cs with
      | nil => exact absurd hs (splitNl_ne_nil cs)
      | cons l0 ls =>
        rw [hs] at hdrop hlast
        cases ls with
        | nil =>
          simp at hlast
          exact splitNl_eq_single_nil (hs.trans (by rw [hlast]))
        | cons l1 ls2 => simp at hdrop
    · rw [if_neg hlast] at h
      simp at h
  · intro h
    subst h
    rfl

theorem splitNl_append_cons {l : List Char} (rest : List Char) (h : '\n' ∉ l) :
    splitNl (l ++ '\n' :: rest) = l :: splitNl rest := by
  induction l with
  | nil => simp [splitNl]
  | cons c l ih =>
    have hc : c ≠ '\n' := fun hh => h (hh ▸ List.mem_cons_self c l)
    have hnl : '\n' ∉ l := fun hh => h (List.mem_cons_of_mem c hh)
    rw [List.cons_append, splitNl, if_neg hc, ih hnl]

theorem splitNl_joinLines : ∀ ls : List (List Char), ls ≠ [] →
    (∀ l ∈ ls, '\n' ∉ l) →
    splitNl (joinLines ls ++ ['\n']) = ls ++ [[]]
  | [], h, _ => absurd rfl h
  | [l], _, hnl => by
    rw [joinLines, splitNl_append_cons [] (hnl l (List.mem_singleton_self l))]
    rfl
  | l :: l2 :: ls, _, hnl => by
    rw [joinLines, List.append_assoc, List.cons_append,
      splitNl_append_cons _ (hnl l (List.mem_cons_self _ _)),
      splitNl_joinLines (l2 :: ls) (List.cons_ne_nil l2 ls)
        (fun x hx => hnl x (List.mem_cons_of_mem l hx))]
    rfl

/-- Claim C6, amended: the plain-text reader performs no rectangularity
check.  It fails only on empty input; on any input with at least one
line it succeeds, taking the grid width from the first line's byte
length (truncated `as u32`), the height from the line count (likewise
truncated), and carrying every line verbatim (neither truncated nor
padded) into the grid text — ragged input yields an inconsistent grid
instead of a malformed-grid error. -/
theorem casciiC6_amended (content : List Char) :
    (readTxtToFrameData content = Except.error "empty frame file" ↔
      content = []) ∧
    (∀ fd, readTxtToFrameData content = Except.ok fd →
      fd.width_chars = wrap32 (utf8Len ((strLines content).headD [])) ∧
      fd.height_chars = wrap32 ((strLines content).length) ∧
      fd.rgb_colors = [] ∧
      splitNl fd.ascii_text = strLines content ++ [[]]) := by
  constructor
  · unfold readTxtToFrameData
    by_cases h : strLines content = []
    · rw [if_pos h]
      simp [strLines_eq_nil_iff.mp h]
    · rw [if_neg h]
      constructor
      · intro hh
        simp at hh
      · intro hh
        exact absurd (strLines_eq_nil_iff.mpr hh) h
  · intro fd hfd
    unfold readTxtToFrameData at hfd
    by_cases h : strLines content = []
    · rw [if_pos h] at hfd
      simp at hfd
    · rw [if_neg h] at hfd
      have hfd' := Except.ok.inj hfd
      subst hfd'
      refine ⟨rfl, rfl, rfl, ?_⟩
      exact splitNl_joinLines (strLines content) h
        (fun l hl => noNl_strLines hl)

/-- Witness for `casciiC6_amended` on the ragged two-line input
"A\nBC": the reader succeeds, the width comes from the first line, and
both lines survive verbatim. -/
theorem casciiC6_witness :
    (AsciiFrameData.mk ['A', '\n', 'B', 'C', '\n'] 1 2 []).width_chars =
      wrap32 (utf8Len ((strLines ['A', '\n', 'B', 'C']).headD [])) ∧
    (AsciiFrameData.mk ['A', '\n', 'B', 'C', '\n'] 1 2 []).height_chars =
      wrap32 ((strLines ['A', '\n', 'B', 'C']).length) ∧
    (AsciiFrameData.mk ['A', '\n', 'B', 'C', '\n'] 1 2 []).rgb_colors = [] ∧
    splitNl (AsciiFrameData.mk ['A', '\n', 'B', 'C', '\n'] 1 2 []).ascii_text =
      strLines ['A', '\n', 'B', 'C'] ++ [[]] :=
  (casciiC6_amended ['A', '\n', 'B', 'C']).2
    ⟨['A', '\n', 'B', 'C', '\n'], 1, 2, []⟩ rfl

theorem take_add_append (l : List α) (m n : Nat) :
    l.take (m + n) = l.take m ++ (l.drop m).take n := by
  induction m generalizing l with
  | zero => simp
  | succ m ih =>
    cases l with
    | nil => simp
    | cons c l =>
      rw [show m + 1 + n = (m + n) + 1 by omega, List.take_succ_cons,
        List.take_succ_cons, List.drop_succ_cons, List.cons_append, ih]

theorem nonNewlineCount_eq_length : ∀ {text : List Char},
    (∀ c ∈ text, c ≠ '\n') → nonNewlineCount text = text.length
  | [], _ => rfl
  | c :: cs, h => by
    rw [nonNewlineCount, if_neg (h c (List.mem_cons_self c cs)),
      nonNewlineCount_eq_length (fun x hx => h x (List.mem_cons_of_mem c hx)),
      List.length_cons]

/-- Inversion of one successful step of the encoder body loop. -/
theorem writeCframeBody_cons_inv {colors : List Nat} {c : Char}
    {cs : List Char} {k : Nat} {body : List Nat} (hc : c ≠ '\n')
    (h : writeCframeBody colors (c :: cs) k = some body) :
    ∃ r g b tail, colors[k * 3]? = some r ∧ colors[k * 3 + 1]? = some g ∧
      colors[k * 3 + 2]? = some b ∧
      writeCframeBody colors cs (k + 1) = some tail ∧
      body = c.toNat % 256 :: r :: g :: b :: tail := by
  rw [writeCframeBody, if_neg hc] at h
  cases h0 : colors[k * 3]? <;> rw [h0] at h <;> simp at h
  cases h1 : colors[k * 3 + 1]? <;> rw [h1] at h <;> simp at h
  cases h2 : colors[k * 3 + 2]? <;> rw [h2] at h <;> simp at h
  cases ht : writeCframeBody colors cs (k + 1) <;> rw [ht] at h <;> simp at h
  exact ⟨_, _, _, _, rfl, rfl, rfl, rfl, h.symm⟩

theorem writeCframeBody_length : ∀ (text : List Char) {colors : List Nat}
    {k : Nat} {body : List Nat},
    writeCframeBody colors text k = some body → (∀ c ∈ text, c ≠ '\n') →
    body.length = 4 * text.length
  | [], _, _, _, h, _ => by
    rw [writeCframeBody] at h
    cases h
    rfl
  | c :: cs, colors, k, body, h, hnl => by
    obtain ⟨r, g, b, tail, _, _, _, ht, rfl⟩ :=
      writeCframeBody_cons_inv (hnl c (List.mem_cons_self c cs)) h
    have htl := writeCframeBody_length cs ht
      (fun x hx => hnl x (List.mem_cons_of_mem c hx))
    simp only [List.length_cons, htl]
    omega

theorem getElem?_cons4_0 {α : Type} (a b c d : α) (l : List α) (j : Nat) :
    (a :: b :: c :: d :: l)[4 * (j + 1)]? = l[4 * j]? := by
  show (a :: b :: c :: d :: l)[4 * j + 3 + 1]? = l[4 * j]?
  rw [List.getElem?_cons_succ]
  show (b :: c :: d :: l)[4 * j + 2 + 1]? = l[4 * j]?
  rw [List.getElem?_cons_succ]
  show (c :: d :: l)[4 * j + 1 + 1]? = l[4 * j]?
  rw [List.getElem?_cons_succ]
  show (d :: l)[4 * j + 1]? = l[4 * j]?
  rw [List.getElem?_cons_succ]

theorem getElem?_cons4_1 {α : Type} (a b c d : α) (l : List α) (j : Nat) :
    (a :: b :: c :: d :: l)[4 * (j + 1) + 1]? = l[4 * j + 1]? := by
  show (a :: b :: c :: d :: l)[4 * j + 4 + 1]? = l[4 * j + 1]?
  rw [List.getElem?_cons_succ]
  show (b :: c :: d :: l)[4 * j + 3 + 1]? = l[4 * j + 1]?
  rw [List.getElem?_cons_succ]
  show (c :: d :: l)[4 * j + 2 + 1]? = l[4 * j + 1]?
  rw [List.getElem?_cons_succ]
  show (d :: l)[4 * j + 1 + 1]? = l[4 * j + 1]?
  rw [List.getElem?_cons_succ]

theorem getElem?_cons4_2 {α : Type} (a b c d : α) (l : List α) (j : Nat) :
    (a :: b :: c :: d :: l)[4 * (j + 1) + 2]? = l[4 * j + 2]? := by
  show (a :: b :: c :: d :: l)[4 * j + 5 + 1]? = l[4 * j + 2]?
  rw [List.getElem?_cons_succ]
  show (b :: c :: d :: l)[4 * j + 4 + 1]? = l[4 * j + 2]?
  rw [List.getElem?_cons_succ]
  show (c :: d :: l)[4 * j + 3 + 1]? = l[4 * j + 2]?
  rw [List.getElem?_cons_succ]
  show (d :: l)[4 * j + 2 + 1]? = l[4 * j + 2]?
  rw [List.getElem?_cons_succ]

theorem getElem?_cons4_3 {α : Type} (a b c d : α) (l : List α) (j : Nat) :
    (a :: b :: c :: d :: l)[4 * (j + 1) + 3]? = l[4 * j + 3]? := by
  show (a :: b :: c :: d :: l)[4 * j + 6 + 1]? = l[4 * j + 3]?
  rw [List.getElem?_cons_succ]
  show (b :: c :: d :: l)[4 * j + 5 + 1]? = l[4 * j + 3]?
  rw [List.getElem?_cons_succ]
  show (c :: d :: l)[4 * j + 4 + 1]? = l[4 * j + 3]?
  rw [List.getElem?_cons_succ]
  show (d :: l)[4 * j + 3 + 1]? = l[4 * j + 3]?
  rw [List.getElem?_cons_succ]

/-- The bytes of the 4-byte records of a successful encoder body, cell by
cell: record `j` holds the `j`-th text character (as a byte) followed by
its three color bytes. -/
theorem writeCframeBody_getElem :
    ∀ (text : List Char) {colors : List Nat} {k : Nat} {body : List Nat},
      writeCframeBody colors text k = some body →
      (∀ c ∈ text, c ≠ '\n') →
      ∀ j, j < text.length →
        ∃ c, text[j]? = some c ∧
          body[4 * j]? = some (c.toNat % 256) ∧
          body[4 * j + 1]? = colors[(k + j) * 3]? ∧
          body[4 * j + 2]? = colors[(k + j) * 3 + 1]? ∧
          body[4 * j + 3]? = colors[(k + j) * 3 + 2]?
  | [], _, _, _, _, _, j, hj => absurd hj (by simp)
  | c :: cs, colors, k, body, h, hnl, j, hj => by
    obtain ⟨r, g, b, tail, h0, h1, h2, ht, rfl⟩ :=
      writeCframeBody_cons_inv (hnl c (List.mem_cons_self c cs)) h
    cases j with
    | zero =>
      refine ⟨c, List.getElem?_cons_zero, ?_, ?_, ?_, ?_⟩
      · show (c.toNat % 256 :: r :: g :: b :: tail)[0]? = some (c.toNat % 256)
        exact List.getElem?_cons_zero
      · show (c.toNat % 256 :: r :: g :: b :: tail)[0 + 1]? = colors[(k + 0) * 3]?
        rw [List.getElem?_cons_succ, List.getElem?_cons_zero,
          show (k + 0) * 3 = k * 3 by ring, h0]
      · show (c.toNat % 256 :: r :: g :: b :: tail)[0 + 1 + 1]? =
          colors[(k + 0) * 3 + 1]?
        rw [List.getElem?_cons_succ, List.getElem?_cons_succ,
          List.getElem?_cons_zero, show (k + 0) * 3 + 1 = k * 3 + 1 by ring, h1]
      · show (c.toNat % 256 :: r :: g :: b :: tail)[0 + 1 + 1 + 1]? =
          colors[(k + 0) * 3 + 2]?
        rw [List.getElem?_cons_succ, List.getElem?_cons_succ,
          List.getElem?_cons_succ, List.getElem?_cons_zero,
          show (k + 0) * 3 + 2 = k * 3 + 2 by ring, h2]
    | succ j =>
      have hj2 : j < cs.length := by
        rw [List.length_cons] at hj
        omega
      obtain ⟨c2, hc2, hb0, hb1, hb2, hb3⟩ :=
        writeCframeBody_getElem cs ht
          (fun x hx => hnl x (List.mem_cons_of_mem c hx)) j hj2
      refine ⟨c2, ?_, ?_, ?_, ?_, ?_⟩
      · rw [List.getElem?_cons_succ, hc2]
      · rw [getElem?_cons4_0, hb0]
      · rw [getElem?_cons4_1, hb1, show (k + 1 + j) * 3 = (k + (j + 1)) * 3 by ring]
      · rw [getElem?_cons4_2, hb2,
          show (k + 1 + j) * 3 + 1 = (k + (j + 1)) * 3 + 1 by ring]
      · rw [getElem?_cons4_3, hb3,
          show (k + 1 + j) * 3 + 2 = (k + (j + 1)) * 3 + 2 by ring]

theorem le32_length (n : Nat) : (le32 n).length = 4 := rfl

theorem le32_getElem0 (n : Nat) : (le32 n)[0]? = some (n % 256) := rfl

theorem le32_getElem1 (n : Nat) : (le32 n)[1]? = some (n / 256 % 256) := rfl

theorem le32_getElem2 (n : Nat) : (le32 n)[2]? = some (n / 65536 % 256) := rfl

theorem le32_getElem3 (n : Nat) : (le32 n)[3]? = some (n / 16777216 % 256) := rfl

/-- Reading the little-endian header field back gives the value, for
values that fit a `u32`. -/
theorem readU32LE_le32 (n : Nat) (rest : List Nat) (hn : n < 4294967296) :
    readU32LE (le32 n ++ rest) 0 = some n := by
  unfold readU32LE
  simp only [Nat.zero_add]
  rw [List.getElem?_append_left (show 0 < (le32 n).length by rw [le32_length]; omega),
    List.getElem?_append_left (show 1 < (le32 n).length by rw [le32_length]; omega),
    List.getElem?_append_left (show 2 < (le32 n).length by rw [le32_length]; omega),
    List.getElem?_append_left (show 3 < (le32 n).length by rw [le32_length]; omega),
    le32_getElem0, le32_getElem1, le32_getElem2, le32_getElem3]
  exact congrArg some (by omega)

theorem readU32LE_append (l1 data : List Nat) (i : Nat) :
    readU32LE (l1 ++ data) (l1.length + i) = readU32LE data i := by
  unfold readU32LE
  rw [List.getElem?_append_right (show l1.length ≤ l1.length + i from Nat.le_add_right _ _),
    Nat.add_sub_cancel_left,
    show l1.length + i + 1 = l1.length + (i + 1) by omega,
    List.getElem?_append_right (show l1.length ≤ l1.length + (i + 1) from Nat.le_add_right _ _),
    Nat.add_sub_cancel_left,
    show l1.length + i + 2 = l1.length + (i + 2) by omega,
    List.getElem?_append_right (show l1.length ≤ l1.length + (i + 2) from Nat.le_add_right _ _),
    Nat.add_sub_cancel_left,
    show l1.length + i + 3 = l1.length + (i + 3) by omega,
    List.getElem?_append_right (show l1.length ≤ l1.length + (i + 3) from Nat.le_add_right _ _),
    Nat.add_sub_cancel_left]

/-- Reading the second header field of a cframe byte sequence. -/
theorem readU32LE_le32_skip (wv : Nat) (X : List Nat) :
    readU32LE (le32 wv ++ X) 4 = readU32LE X 0 := by
  have h := readU32LE_append (le32 wv) X 0
  rw [le32_length, Nat.add_zero] at h
  exact h

/-- Body bytes of the full cframe byte sequence, behind the 8-byte
header. -/
theorem cframeBytes_getElem (wv hv : Nat) (body : List Nat) (n : Nat) :
    (le32 wv ++ (le32 hv ++ body))[8 + n]? = body[n]? := by
  rw [List.getElem?_append_right
      (show (le32 wv).length ≤ 8 + n by rw [le32_length]; omega),
    le32_length, show 8 + n - 4 = 4 + n by omega,
    List.getElem?_append_right
      (show (le32 hv).length ≤ 4 + n by rw [le32_length]; omega),
    le32_length, Nat.add_sub_cancel_left]

/-- A 3-element slice of a list described by its three elements. -/
theorem take3_slice {l : List Nat} {i : Nat} {a b c : Nat}
    (h0 : l[i]? = some a) (h1 : l[i + 1]? = some b)
    (h2 : l[i + 2]? = some c) :
    (l.drop i).take 3 = [a, b, c] := by
  apply List.ext_getElem?
  intro n
  match n with
  | 0 =>
    rw [List.getElem?_take_of_lt (by omega), List.getElem?_drop, Nat.add_zero, h0]
    rfl
  | 1 =>
    rw [List.getElem?_take_of_lt (by omega), List.getElem?_drop, h1]
    rfl
  | 2 =>
    rw [List.getElem?_take_of_lt (by omega), List.getElem?_drop, h2]
    rfl
  | n + 3 =>
    rw [List.getElem?_eq_none (by rw [List.length_take]; omega),
      List.getElem?_eq_none (by simp)]

/-- The decoder's column loop, run over the bytes of a successful
encode, in the regime where no record offset wraps: it reproduces the
row's text slice and color slice. -/
theorem readRowAux_spec (data : List Nat) (text : List Char)
    (colors : List Nat) (body : List Nat) (wv row : Nat)
    (hbody : writeCframeBody colors text 0 = some body)
    (hnl : ∀ c ∈ text, c ≠ '\n')
    (hbyte : ∀ c ∈ text, c.toNat < 256)
    (hcol : colors.length = 3 * text.length)
    (hdata : ∀ m, data[8 + m]? = body[m]?) :
    ∀ (n col : Nat),
      4 * (row * wv + col + n) ≤ 4294967296 →
      row * wv + col + n ≤ text.length →
      readRowAux data wv row n col =
        some ((text.drop (row * wv + col)).take n,
          (colors.drop ((row * wv + col) * 3)).take (3 * n)) := by
  intro n
  induction n with
  | zero =>
    intro col _ _
    rw [readRowAux]
    simp
  | succ n ih =>
    intro col h4 hlen
    have hj : row * wv + col < text.length := by omega
    obtain ⟨c, hc, hb0, hb1, hb2, hb3⟩ :=
      writeCframeBody_getElem text hbody hnl (row * wv + col) hj
    simp only [Nat.zero_add] at hb1 hb2 hb3
    have hjc0 : (row * wv + col) * 3 < colors.length := by rw [hcol]; omega
    have hjc1 : (row * wv + col) * 3 + 1 < colors.length := by rw [hcol]; omega
    have hjc2 : (row * wv + col) * 3 + 2 < colors.length := by rw [hcol]; omega
    obtain ⟨v0, hv0⟩ : ∃ v, colors[(row * wv + col) * 3]? = some v :=
      ⟨_, List.getElem?_eq_getElem hjc0⟩
    obtain ⟨v1, hv1⟩ : ∃ v, colors[(row * wv + col) * 3 + 1]? = some v :=
      ⟨_, List.getElem?_eq_getElem hjc1⟩
    obtain ⟨v2, hv2⟩ : ∃ v, colors[(row * wv + col) * 3 + 2]? = some v :=
      ⟨_, List.getElem?_eq_getElem hjc2⟩
    have hwrap : wrap32 ((row * wv + col) * 4) = (row * wv + col) * 4 := by
      unfold wrap32
      exact Nat.mod_eq_of_lt (by omega)
    have e0 : data[8 + wrap32 ((row * wv + col) * 4)]? = some (c.toNat % 256) := by
      rw [hwrap, show (row * wv + col) * 4 = 4 * (row * wv + col) by ring,
        hdata, hb0]
    have e1 : data[8 + wrap32 ((row * wv + col) * 4) + 1]? = some v0 := by
      rw [hwrap,
        show 8 + (row * wv + col) * 4 + 1 = 8 + (4 * (row * wv + col) + 1) by ring,
        hdata, hb1, hv0]
    have e2 : data[8 + wrap32 ((row * wv + col) * 4) + 2]? = some v1 := by
      rw [hwrap,
        show 8 + (row * wv + col) * 4 + 2 = 8 + (4 * (row * wv + col) + 2) by ring,
        hdata, hb2, hv1]
    have e3 : data[8 + wrap32 ((row * wv + col) * 4) + 3]? = some v2 := by
      rw [hwrap,
        show 8 + (row * wv + col) * 4 + 3 = 8 + (4 * (row * wv + col) + 3) by ring,
        hdata, hb3, hv2]
    have e4 : readRowAux data wv row n (col + 1) =
        some ((text.drop (row * wv + (col + 1))).take n,
          (colors.drop ((row * wv + (col + 1)) * 3)).take (3 * n)) :=
      ih (col + 1) (by omega) (by omega)
    have hcmod : c.toNat % 256 = c.toNat :=
      Nat.mod_eq_of_lt (hbyte c (List.getElem?_mem hc))
    have hgetc : text[row * wv + col] = c := by
      have h2 := List.getElem?_eq_getElem hj
      rw [hc] at h2
      exact (Option.some.inj h2).symm
    have htext : (text.drop (row * wv + col)).take (n + 1) =
        Char.ofNat (c.toNat % 256) ::
          (text.drop (row * wv + (col + 1))).take n := by
      rw [hcmod, Char.ofNat_toNat, List.drop_eq_getElem_cons hj,
        List.take_succ_cons, hgetc,
        show row * wv + col + 1 = row * wv + (col + 1) by ring]
    have hcols : (colors.drop ((row * wv + col) * 3)).take (3 * (n + 1)) =
        v0 :: v1 :: v2 ::
          (colors.drop ((row * wv + (col + 1)) * 3)).take (3 * n) := by
      rw [show 3 * (n + 1) = 3 + 3 * n by ring, take_add_append,
        List.drop_drop, take3_slice hv0 hv1 hv2,
        show (row * wv + col) * 3 + 3 = (row * wv + (col + 1)) * 3 by ring]
      rfl
    rw [readRowAux, e0, e1, e2, e3, e4, htext, hcols]
    rfl

/-- The decoder's row loop over the bytes of a successful encode, in the
no-wrap regime: it reproduces the remaining rows, newline-terminated,
together with their colors. -/
theorem readRowsAux_spec (data : List Nat) (text : List Char)
    (colors : List Nat) (body : List Nat) (wv : Nat)
    (hbody : writeCframeBody colors text 0 = some body)
    (hnl : ∀ c ∈ text, c ≠ '\n')
    (hbyte : ∀ c ∈ text, c.toNat < 256)
    (hcol : colors.length = 3 * text.length)
    (hdata : ∀ m, data[8 + m]? = body[m]?) :
    ∀ (n row : Nat),
      4 * ((row + n) * wv) ≤ 4294967296 →
      (row + n) * wv ≤ text.length →
      readRowsAux data wv n row =
        some (withRowNewlines wv n (text.drop (row * wv)),
          (colors.drop (row * wv * 3)).take (3 * (n * wv))) := by
  intro n
  induction n with
  | zero =>
    intro row _ _
    rw [readRowsAux, withRowNewlines]
    simp
  | succ n ih =>
    intro row h4 hlen
    have hexp : (row + 1) * wv = row * wv + wv := by ring
    have hb1 : (row + 1) * wv ≤ (row + (n + 1)) * wv :=
      Nat.mul_le_mul_right _ (by omega)
    have hb2 : 4 * ((row + 1) * wv) ≤ 4 * ((row + (n + 1)) * wv) :=
      Nat.mul_le_mul_left _ hb1
    have e1 : readRowAux data wv row wv 0 =
        some ((text.drop (row * wv + 0)).take wv,
          (colors.drop ((row * wv + 0) * 3)).take (3 * wv)) :=
      readRowAux_spec data text colors body wv row hbody hnl hbyte hcol hdata
        wv 0 (by omega) (by omega)
    have e2 : readRowsAux data wv n (row + 1) =
        some (withRowNewlines wv n (text.drop ((row + 1) * wv)),
          (colors.drop ((row + 1) * wv * 3)).take (3 * (n * wv))) :=
      ih (row + 1) (by rw [show row + 1 + n = row + (n + 1) by omega]; exact h4)
        (by rw [show row + 1 + n = row + (n + 1) by omega]; exact hlen)
    have htext : withRowNewlines wv (n + 1) (text.drop (row * wv)) =
        (text.drop (row * wv + 0)).take wv ++
          '\n' :: withRowNewlines wv n (text.drop ((row + 1) * wv)) := by
      rw [withRowNewlines, List.drop_drop,
        show row * wv + wv = (row + 1) * wv by ring,
        show row * wv + 0 = row * wv by ring]
    have hcols2 : (colors.drop (row * wv * 3)).take (3 * ((n + 1) * wv)) =
        (colors.drop ((row * wv + 0) * 3)).take (3 * wv) ++
          (colors.drop ((row + 1) * wv * 3)).take (3 * (n * wv)) := by
      rw [show 3 * ((n + 1) * wv) = 3 * wv + 3 * (n * wv) by ring,
        take_add_append, List.drop_drop,
        show row * wv * 3 + 3 * wv = (row + 1) * wv * 3 by ring,
        show (row * wv + 0) * 3 = row * wv * 3 by ring]
    rw [readRowsAux, e1, e2, htext, hcols2]
    rfl

/-- Claim C2, amended: the cframe round trip holds for every
CharacterGrid whose cell count satisfies `width*height*4 ≤ 2^32` (no
`u32` overflow in the decoder's index arithmetic): encoding succeeds and
decoding the bytes reproduces the width, the height, the colors, and the
text with a newline appended after every `width`-th character. -/
theorem casciiC2_amended (w h : Nat) (text : List Char) (colors : List Nat)
    (hw : w < 4294967296) (hh : h < 4294967296)
    (htext : text.length = w * h)
    (hprintable : ∀ c ∈ text, 32 ≤ c.toNat ∧ c.toNat ≤ 126)
    (hcolors : colors.length = 3 * (w * h))
    (hov : w * h * 4 ≤ 4294967296) :
    ∃ bytes, writeCframeBinary w h text colors = some bytes ∧
      readCframeToFrameData bytes =
        some (Except.ok ⟨withRowNewlines w h text, w, h, colors⟩) := by
  have hnl : ∀ c ∈ text, c ≠ '\n' := by
    intro c hcmem hq
    have h32 := (hprintable c hcmem).1
    rw [hq] at h32
    exact absurd h32 (by decide)
  have hbyte : ∀ c ∈ text, c.toNat < 256 := fun c hcmem => by
    have := (hprintable c hcmem).2
    omega
  have hcol2 : colors.length = 3 * text.length := by rw [htext, hcolors]
  have hsome : (writeCframeBody colors text 0).isSome = true := by
    rw [writeCframeBody_isSome]
    right
    rw [nonNewlineCount_eq_length hnl, htext, hcolors]
    omega
  obtain ⟨body, hbody⟩ := Option.isSome_iff_exists.mp hsome
  have hblen : body.length = 4 * text.length :=
    writeCframeBody_length text hbody hnl
  refine ⟨le32 w ++ (le32 h ++ body), ?_, ?_⟩
  · unfold writeCframeBinary
    rw [hbody]
    rfl
  · have hlen : (le32 w ++ (le32 h ++ body)).length = 8 + 4 * text.length := by
      rw [List.length_append, List.length_append, le32_length, le32_length,
        hblen]
      omega
    have hdata : ∀ m, (le32 w ++ (le32 h ++ body))[8 + m]? = body[m]? :=
      fun m => cframeBytes_getElem w h body m
    have hrows := readRowsAux_spec (le32 w ++ (le32 h ++ body)) text colors
      body w hbody hnl hbyte hcol2 hdata h 0
      (by rw [show (0 + h) * w = w * h by ring]; omega)
      (by rw [show (0 + h) * w = w * h by ring]; omega)
    rw [show (0 : Nat) * w = 0 by ring, List.drop_zero,
      show (0 : Nat) * 3 = 0 by ring, List.drop_zero,
      List.take_of_length_le
        (by rw [hcolors, show 3 * (h * w) = 3 * (w * h) by ring])] at hrows
    unfold readCframeToFrameData
    rw [if_neg (by rw [hlen]; omega)]
    rw [readU32LE_le32 w _ hw, readU32LE_le32_skip, readU32LE_le32 h _ hh]
    have hmod := Nat.mod_le (w * h * 4) 4294967296
    show (if (le32 w ++ (le32 h ++ body)).length < 8 + wrap32 (w * h * 4)
      then some (Except.error "cframe file truncated")
      else _) = _
    rw [if_neg (by unfold wrap32; rw [hlen, htext]; omega)]
    rw [hrows]
    rfl

/-- Witness for `casciiC2_amended`: a 2×1 grid round-trips. -/
theorem casciiC2_witness :
    ∃ bytes, writeCframeBinary 2 1 ['A', 'B'] [1, 2, 3, 4, 5, 6] = some bytes ∧
      readCframeToFrameData bytes =
        some (Except.ok ⟨withRowNewlines 2 1 ['A', 'B'], 2, 1,
          [1, 2, 3, 4, 5, 6]⟩) :=
  casciiC2_amended 2 1 ['A', 'B'] [1, 2, 3, 4, 5, 6] (by decide) (by decide)
    (by decide) (by decide) (by decide) (by decide)

/-- Splitting the decoder's column loop into two runs. -/
theorem readRowAux_split (data : List Nat) (wv row : Nat) :
    ∀ (m n2 col : Nat),
      readRowAux data wv row (m + n2) col = (do
        let (cs1, rgb1) ← readRowAux data wv row m col
        let (cs2, rgb2) ← readRowAux data wv row n2 (col + m)
        some (cs1 ++ cs2, rgb1 ++ rgb2)) := by
  intro m
  induction m with
  | zero =>
    intro n2 col
    rw [Nat.zero_add, Nat.add_zero, readRowAux]
    cases hx : readRowAux data wv row n2 col <;> simp [hx]
  | succ m ih =>
    intro n2 col
    rw [show m + 1 + n2 = (m + n2) + 1 by omega,
      show col + (m + 1) = col + 1 + m by omega,
      readRowAux, readRowAux, ih n2 (col + 1)]
    cases h0 : data[8 + wrap32 ((row * wv + col) * 4)]? <;> simp [h0]
    cases h1 : data[8 + wrap32 ((row * wv + col) * 4) + 1]? <;> simp [h1]
    cases h2 : data[8 + wrap32 ((row * wv + col) * 4) + 2]? <;> simp [h2]
    cases h3 : data[8 + wrap32 ((row * wv + col) * 4) + 3]? <;> simp [h3]
    cases hA : readRowAux data wv row m (col + 1) with
    | none => simp
    | some p =>
      obtain ⟨cs1, rgb1⟩ := p
      cases hB : readRowAux data wv row n2 (col + 1 + m) with
      | none => simp
      | some q =>
        obtain ⟨cs2, rgb2⟩ := q
        simp [List.append_assoc]

/-- One step of the decoder's column loop. -/
theorem readRowAux_one (data : List Nat) (wv row col : Nat) :
    readRowAux data wv row 1 col = (do
      let c ← data[8 + wrap32 ((row * wv + col) * 4)]?
      let r ← data[8 + wrap32 ((row * wv + col) * 4) + 1]?
      let g ← data[8 + wrap32 ((row * wv + col) * 4) + 2]?
      let b ← data[8 + wrap32 ((row * wv + col) * 4) + 3]?
      some ([Char.ofNat c], [r, g, b])) := by
  rw [readRowAux]
  cases h0 : data[8 + wrap32 ((row * wv + col) * 4)]? <;> simp [h0]
  cases h1 : data[8 + wrap32 ((row * wv + col) * 4) + 1]? <;> simp [h1]
  cases h2 : data[8 + wrap32 ((row * wv + col) * 4) + 2]? <;> simp [h2]
  cases h3 : data[8 + wrap32 ((row * wv + col) * 4) + 3]? <;> simp [h3]
  rw [readRowAux]
  rfl

/-- One step of the decoder's row loop. -/
theorem readRowsAux_one (data : List Nat) (wv row : Nat) :
    readRowsAux data wv 1 row = (do
      let (cs, rgbs) ← readRowAux data wv row wv 0
      some (cs ++ ['\n'], rgbs)) := by
  rw [readRowsAux]
  cases hx : readRowAux data wv row wv 0 with
  | none => simp
  | some p =>
    obtain ⟨cs, rgbs⟩ := p
    simp [readRowsAux]

/-- Claim C2, counterexample.  For the 1-row grid `bigText`/`bigColors`
with `width = 2^30 + 1` the encode succeeds, but the record offset of
cell `2^30` is `4 * 2^30 = 2^32`, which wraps to 0 in the decoder's
`u32` index arithmetic: the decoder re-reads record 0 ('A') instead of
the last record ('B').  Decoding reproduces the width, height, and
colors, but not the text: the round trip fails. -/
theorem casciiC2_cex :
    ∃ bytes fd,
      writeCframeBinary 1073741825 1 bigText bigColors = some bytes ∧
      readCframeToFrameData bytes = some (Except.ok fd) ∧
      fd.width_chars = 1073741825 ∧
      fd.height_chars = 1 ∧
      fd.rgb_colors = bigColors ∧
      fd.ascii_text ≠ withRowNewlines 1073741825 1 bigText := by
  have hlenT : bigText.length = 1073741825 := by
    rw [bigText, List.length_append, List.length_replicate]
    rfl
  have hlenC : bigColors.length = 3221225475 := by
    rw [bigColors, List.length_replicate]
  have hnl : ∀ c ∈ bigText, c ≠ '\n' := by
    intro c hcm
    rw [bigText] at hcm
    rcases List.mem_append.mp hcm with hrep | hb
    · rw [List.eq_of_mem_replicate hrep]
      decide
    · rw [List.mem_singleton.mp hb]
      decide
  have hbyte : ∀ c ∈ bigText, c.toNat < 256 := by
    intro c hcm
    rw [bigText] at hcm
    rcases List.mem_append.mp hcm with hrep | hb
    · rw [List.eq_of_mem_replicate hrep]
      decide
    · rw [List.mem_singleton.mp hb]
      decide
  have hcol2 : bigColors.length = 3 * bigText.length := by
    rw [hlenT, hlenC]
  have hsome : (writeCframeBody bigColors bigText 0).isSome = true := by
    rw [writeCframeBody_isSome]
    right
    rw [nonNewlineCount_eq_length hnl, hlenT, hlenC]
  obtain ⟨body, hbody⟩ := Option.isSome_iff_exists.mp hsome
  have hblen : body.length = 4 * bigText.length :=
    writeCframeBody_length bigText hbody hnl
  have hdata : ∀ m,
      (le32 1073741825 ++ (le32 1 ++ body))[8 + m]? = body[m]? :=
    fun m => cframeBytes_getElem 1073741825 1 body m
  have hchunk1 : readRowAux (le32 1073741825 ++ (le32 1 ++ body)) 1073741825 0
      1073741824 0 =
      some ((bigText.drop (0 * 1073741825 + 0)).take 1073741824,
        (bigColors.drop ((0 * 1073741825 + 0) * 3)).take (3 * 1073741824)) :=
    readRowAux_spec _ bigText bigColors body 1073741825 0 hbody hnl hbyte
      hcol2 hdata 1073741824 0 (by norm_num) (by rw [hlenT]; norm_num)
  rw [show (0 * 1073741825 + 0 : Nat) = 0 by norm_num, List.drop_zero,
    show (0 * 3 : Nat) = 0 by norm_num, List.drop_zero] at hchunk1
  have hsplitC : bigColors =
      List.replicate 3221225472 (0 : Nat) ++ List.replicate 3 0 := by
    rw [bigColors, show (3221225475 : Nat) = 3221225472 + 3 by norm_num,
      List.replicate_add]
  have htake1 : bigText.take 1073741824 = List.replicate 1073741824 'A' := by
    rw [bigText, List.take_left' (by rw [List.length_replicate])]
  have htake2 : bigColors.take (3 * 1073741824) =
      List.replicate 3221225472 (0 : Nat) := by
    rw [hsplitC, List.take_left' (by rw [List.length_replicate])]
  rw [htake1, htake2] at hchunk1
  obtain ⟨c0, hc0, hb0, hb1, hb2, hb3⟩ :=
    writeCframeBody_getElem bigText hbody hnl 0 (by rw [hlenT]; norm_num)
  simp only [Nat.mul_zero, Nat.zero_add, Nat.zero_mul] at hb0 hb1 hb2 hb3
  have hc0A : c0 = 'A' := by
    have hT0 : bigText[0]? = some 'A' := by
      rw [bigText,
        List.getElem?_append_left (by rw [List.length_replicate]; norm_num),
        List.getElem?_replicate_of_lt (by norm_num)]
    rw [hT0] at hc0
    exact (Option.some.inj hc0).symm
  rw [hc0A] at hb0
  have hcolor0 : bigColors[0]? = some 0 := by
    rw [bigColors, List.getElem?_replicate_of_lt (by norm_num)]
  have hcolor1 : bigColors[1]? = some 0 := by
    rw [bigColors, List.getElem?_replicate_of_lt (by norm_num)]
  have hcolor2 : bigColors[2]? = some 0 := by
    rw [bigColors, List.getElem?_replicate_of_lt (by norm_num)]
  rw [hcolor0] at hb1
  rw [hcolor1] at hb2
  rw [hcolor2] at hb3
  have hchunk2 : readRowAux (le32 1073741825 ++ (le32 1 ++ body)) 1073741825 0
      1 (0 + 1073741824) = some (['A'], [0, 0, 0]) := by
    rw [readRowAux_one,
      show ((0 : Nat) * 1073741825 + (0 + 1073741824)) * 4 = 4294967296 by
        norm_num,
      show wrap32 4294967296 = 0 by rfl, hdata 0,
      show (8 : Nat) + 0 + 1 = 8 + 1 by norm_num, hdata 1,
      show (8 : Nat) + 0 + 2 = 8 + 2 by norm_num, hdata 2,
      show (8 : Nat) + 0 + 3 = 8 + 3 by norm_num, hdata 3,
      hb0, hb1, hb2, hb3]
    rfl
  have hrow : readRowAux (le32 1073741825 ++ (le32 1 ++ body)) 1073741825 0
      1073741825 0 =
      some (List.replicate 1073741824 'A' ++ ['A'],
        List.replicate 3221225472 (0 : Nat) ++ [0, 0, 0]) := by
    have hsplit := readRowAux_split (le32 1073741825 ++ (le32 1 ++ body))
      1073741825 0 1073741824 1 0
    rw [show (1073741824 : Nat) + 1 = 1073741825 by norm_num] at hsplit
    rw [hsplit, hchunk1, hchunk2]
    rfl
  have hrows : readRowsAux (le32 1073741825 ++ (le32 1 ++ body)) 1073741825
      1 0 =
      some ((List.replicate 1073741824 'A' ++ ['A']) ++ ['\n'],
        List.replicate 3221225472 (0 : Nat) ++ [0, 0, 0]) := by
    rw [readRowsAux_one, hrow]
    rfl
  have hBlen : (le32 1073741825 ++ (le32 1 ++ body)).length = 4294967308 := by
    rw [List.length_append, List.length_append, le32_length, le32_length,
      hblen, hlenT]
  have hdec : readCframeToFrameData (le32 1073741825 ++ (le32 1 ++ body)) =
      some (Except.ok ⟨(List.replicate 1073741824 'A' ++ ['A']) ++ ['\n'],
        1073741825, 1, List.replicate 3221225472 (0 : Nat) ++ [0, 0, 0]⟩) := by
    unfold readCframeToFrameData
    rw [if_neg (by rw [hBlen]; norm_num)]
    rw [readU32LE_le32 _ _ (by norm_num), readU32LE_le32_skip,
      readU32LE_le32 _ _ (by norm_num)]
    show (if (le32 1073741825 ++ (le32 1 ++ body)).length <
        8 + wrap32 (1073741825 * 1 * 4)
      then some (Except.error "cframe file truncated") else _) = _
    rw [if_neg (by
      rw [hBlen, show wrap32 (1073741825 * 1 * 4) = 4 by rfl]
      norm_num)]
    rw [hrows]
    rfl
  have hcolsEq : List.replicate 3221225472 (0 : Nat) ++ [0, 0, 0] =
      bigColors := by
    rw [hsplitC]
    rfl
  have hexp : withRowNewlines 1073741825 1 bigText = bigText ++ ['\n'] := by
    show bigText.take 1073741825 ++ ['\n'] = bigText ++ ['\n']
    rw [List.take_of_length_le (by rw [hlenT])]
  have hne : ((List.replicate 1073741824 'A' ++ ['A']) ++ ['\n'] : List Char) ≠
      withRowNewlines 1073741825 1 bigText := by
    rw [hexp]
    intro heq
    have h1 : ((List.replicate 1073741824 'A' ++ ['A']) ++
        ['\n'])[1073741824]? = some 'A' := by
      rw [List.getElem?_append_left
          (by rw [List.length_append, List.length_replicate]; norm_num),
        List.getElem?_append_right (by rw [List.length_replicate]),
        List.length_replicate, Nat.sub_self]
      rfl
    have h2 : (bigText ++ ['\n'])[1073741824]? = some 'B' := by
      rw [List.getElem?_append_left
          (by rw [bigText, List.length_append, List.length_replicate]; norm_num),
        bigText, List.getElem?_append_right (by rw [List.length_replicate]),
        List.length_replicate, Nat.sub_self]
      rfl
    rw [heq] at h1
    rw [h1] at h2
    exact absurd (Option.some.inj h2) (by decide)
  refine ⟨le32 1073741825 ++ (le32 1 ++ body),
    ⟨(List.replicate 1073741824 'A' ++ ['A']) ++ ['\n'], 1073741825, 1,
      List.replicate 3221225472 (0 : Nat) ++ [0, 0, 0]⟩, ?_, hdec, rfl, rfl,
    hcolsEq, hne⟩
  unfold writeCframeBinary
  rw [hbody]
  rfl

/-- Claim C9, confirmed.  The renderer is a pure function of the frame,
the atlas, and the colors flag: the embedding takes no other input (no
global or shared mutable state exists in `render_ascii_frame_to_rgb` —
it reads only its three arguments), so rendering twice with identical
inputs produces byte-identical buffers. -/
theorem casciiC9 (frame : AsciiFrameData) (atlas : GlyphAtlas)
    (useColors : Bool) :
    render_ascii_frame_to_rgb frame atlas useColors =
      render_ascii_frame_to_rgb frame atlas useColors := rfl

/-- Claim C7, counterexample.  With `width_chars = 2^16` and
`cell_width = 2^16` the product `width_chars * cell_width = 2^32` wraps
to 0 in the `u32` width computation, so the rendered pixel width is 0,
not the smallest even number ≥ `2^32`. -/
theorem casciiC7_cex :
    renderPixelW cexFrameC7 cexAtlasC7 = 0 ∧
    cexFrameC7.width_chars * cexAtlasC7.cell_width = 4294967296 ∧
    ¬ cexFrameC7.width_chars * cexAtlasC7.cell_width ≤
        renderPixelW cexFrameC7 cexAtlasC7 :=
  ⟨rfl, rfl, by decide⟩

/-- Claim C10, counterexample.  With `cell_width = 2^31` on a 1×1 grid,
`pixel_w * pixel_h * 3 = 2^31 * 2 * 3 = 3 * 2^32` wraps to 0 in the
`u32` buffer-size computation, so rendering returns an empty buffer
instead of one of `pixel_w * pixel_h * 3` bytes. -/
theorem casciiC10_cex :
    render_ascii_frame_to_rgb cexFrameC10 cexAtlasC10 false = some [] ∧
    renderPixelW cexFrameC10 cexAtlasC10 *
      renderPixelH cexFrameC10 cexAtlasC10 * 3 = 12884901888 :=
  ⟨rfl, rfl⟩

/-- The even rounding of an output dimension, in the non-overflowing
regime: it is the least even number at or above the true product. -/
theorem evenDim_spec (n : Nat) (h : n + 1 < 4294967296) :
    Even (evenDim n) ∧ n ≤ evenDim n ∧
      ∀ m, Even m → n ≤ m → evenDim n ≤ m := by
  unfold evenDim wrap32
  rw [Nat.mod_eq_of_lt (show n < 4294967296 by omega)]
  by_cases hp : n % 2 = 0
  · rw [if_pos hp]
    refine ⟨Nat.even_iff.mpr hp, Nat.le_refl n, fun m _ hm => hm⟩
  · rw [if_neg hp, Nat.mod_eq_of_lt (show n + 1 < 4294967296 by omega)]
    refine ⟨?_, Nat.le_succ n, ?_⟩
    · rw [Nat.even_add_one]
      exact fun he => hp (Nat.even_iff.mp he)
    · intro m hme hnm
      have hm2 := Nat.even_iff.mp hme
      omega

theorem bindSomeEq {α β : Type} (a : α) (f : α → Option β) :
    (some a >>= f) = f a := rfl

theorem setByte_some {buffer : List Nat} {i : Nat} (v : Nat)
    (h : i < buffer.length) :
    setByte buffer i v = some (buffer.set i v) := by
  unfold setByte
  rw [if_pos h]

/-- Two RGB24 byte positions with distinct pixel coordinates are
distinct. -/
theorem pixel_index_ne {pw px py px2 py2 o o2 : Nat}
    (hpx : px < pw) (hpx2 : px2 < pw)
    (hne : px ≠ px2 ∨ py ≠ py2) (ho : o < 3) (ho2 : o2 < 3) :
    (py * pw + px) * 3 + o ≠ (py2 * pw + px2) * 3 + o2 := by
  intro heq
  have hS : py * pw + px = py2 * pw + px2 := by omega
  have h1 : px = px2 := by
    have e1 : px = (px + py * pw) % pw := by
      rw [Nat.add_mul_mod_self_right, Nat.mod_eq_of_lt hpx]
    have e2 : px2 = (px2 + py2 * pw) % pw := by
      rw [Nat.add_mul_mod_self_right, Nat.mod_eq_of_lt hpx2]
    rw [e1, e2, show px + py * pw = px2 + py2 * pw by omega]
  have h2 : py = py2 := by
    have hmul : py * pw = py2 * pw := by omega
    exact Nat.eq_of_mul_eq_mul_right (by omega) hmul
  rcases hne with h | h
  · exact h h1
  · exact h h2

/-- The inner blit loop never panics, preserves the buffer length, and
leaves every protected byte position untouched, provided every write
position it can produce is unprotected. -/
theorem blitRowAux_spec (alpha : List ℚ) (cw ch pw ph r g b baseX baseY gy : Nat)
    (hov : pw * ph * 3 < 4294967296)
    (halen : cw * ch ≤ alpha.length)
    (hgy : gy < ch)
    (Prot : Nat → Prop)
    (hsafe : ∀ gx o, gx < cw → o < 3 →
      wrap32 (baseX + gx) < pw → wrap32 (baseY + gy) < ph →
      ¬ Prot (wrap32 ((wrap32 (baseY + gy) * pw + wrap32 (baseX + gx)) * 3) + o)) :
    ∀ (n gx : Nat) (buffer : List Nat),
      gx + n ≤ cw → buffer.length = pw * ph * 3 →
      ∃ buf,
        blitRowAux alpha cw pw ph r g b baseX baseY gy n gx buffer = some buf ∧
        buf.length = pw * ph * 3 ∧
        ∀ i, Prot i → buf[i]? = buffer[i]? := by
  intro n
  induction n with
  | zero =>
    intro gx buffer _ hbuf
    exact ⟨buffer, by rw [blitRowAux], hbuf, fun i _ => rfl⟩
  | succ n ih =>
    intro gx buffer hn hbuf
    by_cases hguard : wrap32 (baseX + gx) ≥ pw ∨ wrap32 (baseY + gy) ≥ ph
    · obtain ⟨buf, h1, h2, h3⟩ := ih (gx + 1) buffer (by omega) hbuf
      exact ⟨buf, by rw [blitRowAux, if_pos hguard]; exact h1, h2, h3⟩
    · push_neg at hguard
      obtain ⟨hpx, hpy⟩ := hguard
      have hgx : gx < cw := by omega
      have haidx : wrap32 (gy * cw + gx) < alpha.length := by
        by_cases hc : cw * ch < 4294967296
        · have e1 : (gy + 1) * cw = gy * cw + cw := by ring
          have h2 : (gy + 1) * cw ≤ ch * cw := Nat.mul_le_mul_right _ (by omega)
          have h3 : ch * cw = cw * ch := by ring
          have hlt : gy * cw + gx < cw * ch := by omega
          have he : wrap32 (gy * cw + gx) = gy * cw + gx := by
            unfold wrap32
            exact Nat.mod_eq_of_lt (by omega)
          omega
        · have hl : wrap32 (gy * cw + gx) < 4294967296 :=
            Nat.mod_lt _ (by norm_num)
          omega
      obtain ⟨a, ha⟩ : ∃ a, alpha[wrap32 (gy * cw + gx)]? = some a :=
        ⟨_, List.getElem?_eq_getElem haidx⟩
      by_cases hA : (0 : ℚ) < a
      · have hS : wrap32 (baseY + gy) * pw + wrap32 (baseX + gx) < pw * ph := by
          have h2 : wrap32 (baseY + gy) * pw + pw =
              (wrap32 (baseY + gy) + 1) * pw := by ring
          have h3 : (wrap32 (baseY + gy) + 1) * pw ≤ ph * pw :=
            Nat.mul_le_mul_right _ hpy
          calc wrap32 (baseY + gy) * pw + wrap32 (baseX + gx)
              < (wrap32 (baseY + gy) + 1) * pw := by
                rw [← h2]
                exact Nat.add_lt_add_left hpx _
            _ ≤ ph * pw := h3
            _ = pw * ph := by ring
        have h4 : (wrap32 (baseY + gy) * pw + wrap32 (baseX + gx) + 1) * 3 ≤
            pw * ph * 3 := Nat.mul_le_mul_right 3 hS
        have hoff : (wrap32 (baseY + gy) * pw + wrap32 (baseX + gx)) * 3 + 2 <
            pw * ph * 3 := by
          generalize wrap32 (baseY + gy) * pw + wrap32 (baseX + gx) = S at hS h4 ⊢
          omega
        have hlt32 : (wrap32 (baseY + gy) * pw + wrap32 (baseX + gx)) * 3 <
            4294967296 := by
          generalize wrap32 (baseY + gy) * pw + wrap32 (baseX + gx) = S at hoff ⊢
          omega
        have hwoff :
            wrap32 ((wrap32 (baseY + gy) * pw + wrap32 (baseX + gx)) * 3) =
              (wrap32 (baseY + gy) * pw + wrap32 (baseX + gx)) * 3 := by
          unfold wrap32
          exact Nat.mod_eq_of_lt hlt32
        have hb1 : wrap32 ((wrap32 (baseY + gy) * pw + wrap32 (baseX + gx)) * 3)
            < buffer.length := by
          rw [hwoff, hbuf]
          generalize wrap32 (baseY + gy) * pw + wrap32 (baseX + gx) = S at hoff ⊢
          omega
        have hs1 := setByte_some (f32ToU8 (r * a)) hb1
        have hb2 : wrap32 ((wrap32 (baseY + gy) * pw + wrap32 (baseX + gx)) * 3)
            + 1 < (buffer.set
              (wrap32 ((wrap32 (baseY + gy) * pw + wrap32 (baseX + gx)) * 3))
              (f32ToU8 (r * a))).length := by
          rw [List.length_set, hwoff, hbuf]
          generalize wrap32 (baseY + gy) * pw + wrap32 (baseX + gx) = S at hoff ⊢
          omega
        have hs2 := setByte_some (f32ToU8 (g * a)) hb2
        have hb3 : wrap32 ((wrap32 (baseY + gy) * pw + wrap32 (baseX + gx)) * 3)
            + 2 < ((buffer.set
              (wrap32 ((wrap32 (baseY + gy) * pw + wrap32 (baseX + gx)) * 3))
              (f32ToU8 (r * a))).set
                (wrap32 ((wrap32 (baseY + gy) * pw + wrap32 (baseX + gx)) * 3) + 1)
                (f32ToU8 (g * a))).length := by
          rw [List.length_set, List.length_set, hwoff, hbuf]
          generalize wrap32 (baseY + gy) * pw + wrap32 (baseX + gx) = S at hoff ⊢
          omega
        have hs3 := setByte_some (f32ToU8 (b * a)) hb3
        have hlen3 : (((buffer.set
            (wrap32 ((wrap32 (baseY + gy) * pw + wrap32 (baseX + gx)) * 3))
            (f32ToU8 (r * a))).set
              (wrap32 ((wrap32 (baseY + gy) * pw + wrap32 (baseX + gx)) * 3) + 1)
              (f32ToU8 (g * a))).set
                (wrap32 ((wrap32 (baseY + gy) * pw + wrap32 (baseX + gx)) * 3) + 2)
                (f32ToU8 (b * a))).length = pw * ph * 3 := by
          rw [List.length_set, List.length_set, List.length_set]
          exact hbuf
        obtain ⟨buf, hrec, hlen2, hpres⟩ := ih (gx + 1) _ (by omega) hlen3
        refine ⟨buf, ?_, hlen2, ?_⟩
        · rw [blitRowAux, if_neg (by push_neg; exact ⟨hpx, hpy⟩), ha, bindSomeEq,
            if_pos hA, hs1, bindSomeEq, hs2, bindSomeEq, hs3, bindSomeEq]
          exact hrec
        · intro i hi
          rw [hpres i hi]
          have hne0 := hsafe gx 0 hgx (by omega) hpx hpy
          have hne1 := hsafe gx 1 hgx (by omega) hpx hpy
          have hne2 := hsafe gx 2 hgx (by omega) hpx hpy
          rw [Nat.add_zero] at hne0
          rw [List.getElem?_set_ne (fun heq => (heq ▸ hne2) hi),
            List.getElem?_set_ne (fun heq => (heq ▸ hne1) hi),
            List.getElem?_set_ne (fun heq => (heq ▸ hne0) hi)]
      · obtain ⟨buf, h1, h2, h3⟩ := ih (gx + 1) buffer (by omega) hbuf
        refine ⟨buf, ?_, h2, h3⟩
        rw [blitRowAux, if_neg (by push_neg; exact ⟨hpx, hpy⟩), ha, bindSomeEq,
          if_neg hA]
        exact h1

/-- The per-cell blit loop never panics, preserves the buffer length,
and leaves every protected byte position untouched, provided every
write position it can produce is unprotected. -/
theorem blitCellAux_spec (alpha : List ℚ) (cw ch pw ph r g b baseX baseY : Nat)
    (hov : pw * ph * 3 < 4294967296)
    (halen : cw * ch ≤ alpha.length)
    (Prot : Nat → Prop)
    (hsafe : ∀ gy gx o, gy < ch → gx < cw → o < 3 →
      wrap32 (baseX + gx) < pw → wrap32 (baseY + gy) < ph →
      ¬ Prot (wrap32 ((wrap32 (baseY + gy) * pw + wrap32 (baseX + gx)) * 3) + o)) :
    ∀ (n gy : Nat) (buffer : List Nat),
      gy + n ≤ ch → buffer.length = pw * ph * 3 →
      ∃ buf,
        blitCellAux alpha cw ch pw ph r g b baseX baseY n gy buffer = some buf ∧
        buf.length = pw * ph * 3 ∧
        ∀ i, Prot i → buf[i]? = buffer[i]? := by
  intro n
  induction n with
  | zero =>
    intro gy buffer _ hbuf
    exact ⟨buffer, by rw [blitCellAux], hbuf, fun i _ => rfl⟩
  | succ n ih =>
    intro gy buffer hn hbuf
    obtain ⟨buf1, hrow, hlen1, hpres1⟩ :=
      blitRowAux_spec alpha cw ch pw ph r g b baseX baseY gy hov halen
        (by omega) Prot
        (fun gx o h1 h2 h3 h4 => hsafe gy gx o (by omega) h1 h2 h3 h4)
        cw 0 buffer (by omega) hbuf
    obtain ⟨buf, hrec, hlen2, hpres2⟩ := ih (gy + 1) buf1 (by omega) hlen1
    refine ⟨buf, ?_, hlen2, ?_⟩
    · rw [blitCellAux, hrow, bindSomeEq]
      exact hrec
    · intro i hi
      rw [hpres2 i hi, hpres1 i hi]

/-- The character loop of the renderer never panics and preserves the
buffer length, for every text and every well-formed atlas, as long as
the buffer size fits in a `u32`. -/
theorem renderLoop_total (atlas : GlyphAtlas) (useColors : Bool)
    (colors : List Nat) (pw ph : Nat)
    (hov : pw * ph * 3 < 4294967296)
    (hatlas : ∀ byte gb, atlas.glyphs byte = some gb →
      gb.alpha.length = atlas.cell_width * atlas.cell_height) :
    ∀ (text : List Char) (charIdx row col : Nat) (buffer : List Nat),
      buffer.length = pw * ph * 3 →
      ∃ buf,
        renderLoop atlas useColors colors pw ph text charIdx row col buffer =
          some buf ∧ buf.length = pw * ph * 3 := by
  intro text
  induction text with
  | nil =>
    intro charIdx row col buffer hbuf
    exact ⟨buffer, by rw [renderLoop], hbuf⟩
  | cons ch rest ih =>
    intro charIdx row col buffer hbuf
    by_cases hch : ch = '\n'
    · obtain ⟨buf, h1, h2⟩ := ih charIdx (wrap32 (row + 1)) 0 buffer hbuf
      exact ⟨buf, by rw [renderLoop, if_pos hch]; exact h1, h2⟩
    · cases hg : atlas.glyphs (ch.toNat % 256) with
      | none =>
        obtain ⟨buf, h1, h2⟩ := ih (charIdx + 1) row (wrap32 (col + 1)) buffer hbuf
        refine ⟨buf, ?_, h2⟩
        rw [renderLoop, if_neg hch, hg]
        exact h1
      | some gb =>
        have halen : atlas.cell_width * atlas.cell_height ≤ gb.alpha.length :=
          le_of_eq (hatlas _ gb hg).symm
        obtain ⟨buf1, hcell, hlen1, _⟩ :=
          blitCellAux_spec gb.alpha atlas.cell_width atlas.cell_height pw ph
            (rgbSel useColors colors charIdx).1
            (rgbSel useColors colors charIdx).2.1
            (rgbSel useColors colors charIdx).2.2
            (wrap32 (col * atlas.cell_width))
            (wrap32 (row * atlas.cell_height)) hov halen (fun _ => False)
            (fun _ _ _ _ _ _ _ _ h => h)
            atlas.cell_height 0 buffer (by omega) hbuf
        obtain ⟨buf, h1, h2⟩ := ih (charIdx + 1) row (wrap32 (col + 1)) buf1 hlen1
        refine ⟨buf, ?_, h2⟩
        rw [renderLoop, if_neg hch, hg]
        show (do
          let buf1 ← blitCellAux gb.alpha atlas.cell_width atlas.cell_height
            pw ph (rgbSel useColors colors charIdx).1
            (rgbSel useColors colors charIdx).2.1
            (rgbSel useColors colors charIdx).2.2
            (wrap32 (col * atlas.cell_width))
            (wrap32 (row * atlas.cell_height)) atlas.cell_height 0 buffer
          renderLoop atlas useColors colors pw ph rest (charIdx + 1) row
            (wrap32 (col + 1)) buf1) = some buf
        rw [hcell, bindSomeEq]
        exact h1

/-- Claim C10, amended.  The renderer is total with a buffer of exactly
`pixel_w * pixel_h * 3` bytes on every input — including texts and
colors inconsistent with the declared dimensions — provided the buffer
size does not overflow a `u32` and every atlas glyph holds
`cell_width * cell_height` alpha samples.  When the size product wraps,
the buffer is allocated at the wrapped (wrong) size instead. -/
theorem casciiC10_amended (frame : AsciiFrameData) (atlas : GlyphAtlas)
    (useColors : Bool)
    (hatlas : ∀ byte gb, atlas.glyphs byte = some gb →
      gb.alpha.length = atlas.cell_width * atlas.cell_height)
    (hov : renderPixelW frame atlas * renderPixelH frame atlas * 3 <
      4294967296) :
    ∃ buf, render_ascii_frame_to_rgb frame atlas useColors = some buf ∧
      buf.length =
        renderPixelW frame atlas * renderPixelH frame atlas * 3 := by
  have hinit : (List.replicate
      (wrap32 (renderPixelW frame atlas * renderPixelH frame atlas * 3))
      (0 : Nat)).length =
      renderPixelW frame atlas * renderPixelH frame atlas * 3 := by
    rw [List.length_replicate]
    unfold wrap32
    exact Nat.mod_eq_of_lt hov
  obtain ⟨buf, h1, h2⟩ := renderLoop_total atlas useColors frame.rgb_colors
    (renderPixelW frame atlas) (renderPixelH frame atlas) hov hatlas
    frame.ascii_text 0 0 0 _ hinit
  exact ⟨buf, h1, h2⟩

/-- Witness for C10 at a concrete 1×1 frame and 2×2-glyph atlas. -/
theorem casciiC10_witness :
    ∃ buf, render_ascii_frame_to_rgb witFrameC10 witAtlasC10 true = some buf ∧
      buf.length = renderPixelW witFrameC10 witAtlasC10 *
        renderPixelH witFrameC10 witAtlasC10 * 3 :=
  casciiC10_amended witFrameC10 witAtlasC10 true
    (fun byte gb h => by
      have h2 : (if byte = 65 then some (GlyphBitmap.mk [1, 0, 0, 1])
          else none) = some gb := h
      by_cases hb : byte = 65
      · rw [if_pos hb] at h2
        cases h2
        rfl
      · rw [if_neg hb] at h2
        exact Option.noConfusion h2)
    (by decide)

/-- An in-range RGB24 byte offset is below the buffer size. -/
theorem rgb_offset_lt {pw ph px py o : Nat} (hpx : px < pw) (hpy : py < ph)
    (ho : o < 3) : (py * pw + px) * 3 + o < pw * ph * 3 := by
  have hS : py * pw + px < pw * ph := by
    have h2 : (py + 1) * pw ≤ ph * pw := Nat.mul_le_mul_right _ hpy
    calc py * pw + px < py * pw + pw := Nat.add_lt_add_left hpx _
      _ = (py + 1) * pw := by ring
      _ ≤ ph * pw := h2
      _ = pw * ph := by ring
  have h3 : (py * pw + px + 1) * 3 ≤ pw * ph * 3 := Nat.mul_le_mul_right 3 hS
  generalize py * pw + px = S at hS h3 ⊢
  omega

/-- A glyph pixel of an in-range cell stays below the unpadded extent. -/
theorem cell_offset_lt {w cw col gx : Nat} (hcol : col < w) (hgx : gx < cw) :
    col * cw + gx < w * cw := by
  have h2 : (col + 1) * cw ≤ w * cw := Nat.mul_le_mul_right _ hcol
  have h3 : (col + 1) * cw = col * cw + cw := by ring
  omega

/-- Walking the character loop across one newline-free row advances the
column exactly once per character, preserves the buffer length, and
leaves protected bytes untouched. -/
theorem renderLoop_row (atlas : GlyphAtlas) (useColors : Bool)
    (colors : List Nat) (pw ph w h : Nat)
    (hov : pw * ph * 3 < 4294967296)
    (hatlas : ∀ byte gb, atlas.glyphs byte = some gb →
      gb.alpha.length = atlas.cell_width * atlas.cell_height)
    (hw32 : w < 4294967296)
    (Prot : Nat → Prop)
    (hsafe : ∀ row col gy gx o, row < h → col < w →
      gy < atlas.cell_height → gx < atlas.cell_width → o < 3 →
      wrap32 (wrap32 (col * atlas.cell_width) + gx) < pw →
      wrap32 (wrap32 (row * atlas.cell_height) + gy) < ph →
      ¬ Prot (wrap32 ((wrap32 (wrap32 (row * atlas.cell_height) + gy) * pw +
        wrap32 (wrap32 (col * atlas.cell_width) + gx)) * 3) + o)) :
    ∀ (rrow rest : List Char) (row charIdx col : Nat) (buffer : List Nat),
      '\n' ∉ rrow → row < h → col + rrow.length ≤ w →
      buffer.length = pw * ph * 3 →
      ∃ bufMid,
        renderLoop atlas useColors colors pw ph (rrow ++ rest) charIdx row col
            buffer =
          renderLoop atlas useColors colors pw ph rest (charIdx + rrow.length)
            row (col + rrow.length) bufMid ∧
        bufMid.length = pw * ph * 3 ∧
        ∀ i, Prot i → bufMid[i]? = buffer[i]? := by
  intro rrow
  induction rrow with
  | nil =>
    intro rest row charIdx col buffer _ _ _ hbuf
    refine ⟨buffer, ?_, hbuf, fun i _ => rfl⟩
    rw [List.nil_append, List.length_nil, Nat.add_zero, Nat.add_zero]
  | cons c cs ih =>
    intro rest row charIdx col buffer hnl hrow hcol hbuf
    have hch : c ≠ '\n' := fun he => hnl (List.mem_cons.mpr (Or.inl he.symm))
    rw [List.length_cons] at hcol
    have hcolw : col < w := by omega
    have hwcol : wrap32 (col + 1) = col + 1 := by
      unfold wrap32
      exact Nat.mod_eq_of_lt (by omega)
    have e1 : charIdx + (c :: cs).length = charIdx + 1 + cs.length := by
      rw [List.length_cons]
      omega
    have e2 : col + (c :: cs).length = col + 1 + cs.length := by
      rw [List.length_cons]
      omega
    have hnl2 : '\n' ∉ cs := fun hm => hnl (List.mem_cons.mpr (Or.inr hm))
    cases hg : atlas.glyphs (c.toNat % 256) with
    | none =>
      obtain ⟨bufMid, heq, hlen2, hpres⟩ :=
        ih rest row (charIdx + 1) (col + 1) buffer hnl2 hrow (by omega) hbuf
      refine ⟨bufMid, ?_, hlen2, hpres⟩
      rw [List.cons_append, renderLoop, if_neg hch, hg]
      show renderLoop atlas useColors colors pw ph (cs ++ rest) (charIdx + 1)
        row (wrap32 (col + 1)) buffer = _
      rw [hwcol, heq, e1, e2]
    | some gb =>
      have halen : atlas.cell_width * atlas.cell_height ≤ gb.alpha.length :=
        le_of_eq (hatlas _ gb hg).symm
      obtain ⟨buf1, hcell, hlen1, hpres1⟩ :=
        blitCellAux_spec gb.alpha atlas.cell_width atlas.cell_height pw ph
          (rgbSel useColors colors charIdx).1
          (rgbSel useColors colors charIdx).2.1
          (rgbSel useColors colors charIdx).2.2
          (wrap32 (col * atlas.cell_width))
          (wrap32 (row * atlas.cell_height)) hov halen Prot
          (fun gy gx o hgy hgx ho hpx hpy =>
            hsafe row col gy gx o hrow hcolw hgy hgx ho hpx hpy)
          atlas.cell_height 0 buffer (by omega) hbuf
      obtain ⟨bufMid, heq, hlen2, hpres2⟩ :=
        ih rest row (charIdx + 1) (col + 1) buf1 hnl2 hrow (by omega) hlen1
      refine ⟨bufMid, ?_, hlen2,
        fun i hi => (hpres2 i hi).trans (hpres1 i hi)⟩
      rw [List.cons_append, renderLoop, if_neg hch, hg]
      show (do
        let buf1 ← blitCellAux gb.alpha atlas.cell_width atlas.cell_height
          pw ph (rgbSel useColors colors charIdx).1
          (rgbSel useColors colors charIdx).2.1
          (rgbSel useColors colors charIdx).2.2
          (wrap32 (col * atlas.cell_width))
          (wrap32 (row * atlas.cell_height)) atlas.cell_height 0 buffer
        renderLoop atlas useColors colors pw ph (cs ++ rest) (charIdx + 1)
          row (wrap32 (col + 1)) buf1) = _
      rw [hcell, bindSomeEq, hwcol, heq, e1, e2]

/-- Walking the character loop over a whole well-formed grid text
(`rows` newline-terminated rows of width `w`) terminates in `some`,
preserves the buffer length, and leaves protected bytes untouched. -/
theorem renderLoop_rows (atlas : GlyphAtlas) (useColors : Bool)
    (colors : List Nat) (pw ph w h : Nat)
    (hov : pw * ph * 3 < 4294967296)
    (hatlas : ∀ byte gb, atlas.glyphs byte = some gb →
      gb.alpha.length = atlas.cell_width * atlas.cell_height)
    (hw32 : w < 4294967296) (hh32 : h < 4294967296)
    (Prot : Nat → Prop)
    (hsafe : ∀ row col gy gx o, row < h → col < w →
      gy < atlas.cell_height → gx < atlas.cell_width → o < 3 →
      wrap32 (wrap32 (col * atlas.cell_width) + gx) < pw →
      wrap32 (wrap32 (row * atlas.cell_height) + gy) < ph →
      ¬ Prot (wrap32 ((wrap32 (wrap32 (row * atlas.cell_height) + gy) * pw +
        wrap32 (wrap32 (col * atlas.cell_width) + gx)) * 3) + o)) :
    ∀ (rows : List (List Char)) (row charIdx : Nat) (buffer : List Nat),
      (∀ rrow ∈ rows, rrow.length = w ∧ '\n' ∉ rrow) →
      row + rows.length ≤ h →
      buffer.length = pw * ph * 3 →
      ∃ buf,
        renderLoop atlas useColors colors pw ph (rowsJoin rows) charIdx row 0
            buffer = some buf ∧
        buf.length = pw * ph * 3 ∧
        ∀ i, Prot i → buf[i]? = buffer[i]? := by
  intro rows
  induction rows with
  | nil =>
    intro row charIdx buffer _ _ hbuf
    exact ⟨buffer, rfl, hbuf, fun i _ => rfl⟩
  | cons rrow rows ih =>
    intro row charIdx buffer hwf hrows hbuf
    rw [List.length_cons] at hrows
    obtain ⟨hrl, hrnl⟩ := hwf rrow (List.mem_cons_self rrow rows)
    obtain ⟨bufMid, heq, hlen1, hpres1⟩ :=
      renderLoop_row atlas useColors colors pw ph w h hov hatlas hw32 Prot
        hsafe rrow ('\n' :: rowsJoin rows) row charIdx 0 buffer hrnl
        (by omega) (by omega) hbuf
    have hwrow : wrap32 (row + 1) = row + 1 := by
      unfold wrap32
      exact Nat.mod_eq_of_lt (by omega)
    obtain ⟨buf, hfin, hlen2, hpres2⟩ :=
      ih (row + 1) (charIdx + rrow.length) bufMid
        (fun r hr => hwf r (List.mem_cons.mpr (Or.inr hr))) (by omega) hlen1
    refine ⟨buf, ?_, hlen2, fun i hi => (hpres2 i hi).trans (hpres1 i hi)⟩
    rw [rowsJoin, heq, renderLoop, if_pos rfl, hwrow]
    exact hfin

/-- Every byte the blit of an in-range cell can write lies outside the
padding region: cell pixels stay below `width_chars * cell_width`
columns and `height_chars * cell_height` rows. -/
theorem padProt_safe (frame : AsciiFrameData) (atlas : GlyphAtlas)
    (hW : frame.width_chars * atlas.cell_width + 1 < 4294967296)
    (hH : frame.height_chars * atlas.cell_height + 1 < 4294967296)
    (hov : renderPixelW frame atlas * renderPixelH frame atlas * 3 <
      4294967296) :
    ∀ row col gy gx o, row < frame.height_chars → col < frame.width_chars →
      gy < atlas.cell_height → gx < atlas.cell_width → o < 3 →
      wrap32 (wrap32 (col * atlas.cell_width) + gx) <
        renderPixelW frame atlas →
      wrap32 (wrap32 (row * atlas.cell_height) + gy) <
        renderPixelH frame atlas →
      ¬ padProt frame atlas
        (wrap32 ((wrap32 (wrap32 (row * atlas.cell_height) + gy) *
          renderPixelW frame atlas +
          wrap32 (wrap32 (col * atlas.cell_width) + gx)) * 3) + o) := by
  intro row col gy gx o hrow hcol hgy hgx ho hpx hpy hP
  have hcwlt : col * atlas.cell_width + gx <
      frame.width_chars * atlas.cell_width := cell_offset_lt hcol hgx
  have hchlt : row * atlas.cell_height + gy <
      frame.height_chars * atlas.cell_height := cell_offset_lt hrow hgy
  have hw1 : wrap32 (col * atlas.cell_width) = col * atlas.cell_width := by
    unfold wrap32
    exact Nat.mod_eq_of_lt (by omega)
  have hh1 : wrap32 (row * atlas.cell_height) = row * atlas.cell_height := by
    unfold wrap32
    exact Nat.mod_eq_of_lt (by omega)
  rw [hw1] at hpx hP
  rw [hh1] at hpy hP
  have hw2 : wrap32 (col * atlas.cell_width + gx) =
      col * atlas.cell_width + gx := by
    unfold wrap32
    exact Nat.mod_eq_of_lt (by omega)
  have hh2 : wrap32 (row * atlas.cell_height + gy) =
      row * atlas.cell_height + gy := by
    unfold wrap32
    exact Nat.mod_eq_of_lt (by omega)
  rw [hw2] at hpx hP
  rw [hh2] at hpy hP
  have hoff2 : ((row * atlas.cell_height + gy) * renderPixelW frame atlas +
      (col * atlas.cell_width + gx)) * 3 + o <
      renderPixelW frame atlas * renderPixelH frame atlas * 3 :=
    rgb_offset_lt hpx hpy ho
  have hw3 : wrap32 (((row * atlas.cell_height + gy) *
      renderPixelW frame atlas + (col * atlas.cell_width + gx)) * 3) =
      ((row * atlas.cell_height + gy) * renderPixelW frame atlas +
        (col * atlas.cell_width + gx)) * 3 := by
    unfold wrap32
    exact Nat.mod_eq_of_lt (by omega)
  rw [hw3] at hP
  obtain ⟨px2, py2, o2, hpx2, hpy2, ho2, hside, heq⟩ := hP
  refine pixel_index_ne hpx hpx2 ?_ ho ho2 heq
  rcases hside with hs | hs
  · exact Or.inl (by omega)
  · exact Or.inr (by omega)

/-- Claim C7, amended.  In the non-overflowing regime (each
`chars * cell` product and the buffer size fit in a `u32`), each
rendered dimension is the smallest even number at or above
`chars * cell`, and every byte of the padding rows/columns introduced
by the rounding is zero/black in the rendered buffer; the text must be
the well-formed newline-terminated grid the converter produces.  When
a dimension product wraps, the pixel width is the wrapped value
instead (see the counterexample). -/
theorem casciiC7_amended (frame : AsciiFrameData) (atlas : GlyphAtlas)
    (useColors : Bool) (rows : List (List Char))
    (htext : frame.ascii_text = rowsJoin rows)
    (hrowsn : rows.length = frame.height_chars)
    (hwf : ∀ rrow ∈ rows, rrow.length = frame.width_chars ∧ '\n' ∉ rrow)
    (hatlas : ∀ byte gb, atlas.glyphs byte = some gb →
      gb.alpha.length = atlas.cell_width * atlas.cell_height)
    (hw32 : frame.width_chars < 4294967296)
    (hh32 : frame.height_chars < 4294967296)
    (hW : frame.width_chars * atlas.cell_width + 1 < 4294967296)
    (hH : frame.height_chars * atlas.cell_height + 1 < 4294967296)
    (hov : renderPixelW frame atlas * renderPixelH frame atlas * 3 <
      4294967296) :
    (Even (renderPixelW frame atlas) ∧
      frame.width_chars * atlas.cell_width ≤ renderPixelW frame atlas ∧
      ∀ m, Even m → frame.width_chars * atlas.cell_width ≤ m →
        renderPixelW frame atlas ≤ m) ∧
    (Even (renderPixelH frame atlas) ∧
      frame.height_chars * atlas.cell_height ≤ renderPixelH frame atlas ∧
      ∀ m, Even m → frame.height_chars * atlas.cell_height ≤ m →
        renderPixelH frame atlas ≤ m) ∧
    ∃ buf, render_ascii_frame_to_rgb frame atlas useColors = some buf ∧
      ∀ px py o, px < renderPixelW frame atlas →
        py < renderPixelH frame atlas → o < 3 →
        (frame.width_chars * atlas.cell_width ≤ px ∨
          frame.height_chars * atlas.cell_height ≤ py) →
        buf[(py * renderPixelW frame atlas + px) * 3 + o]? = some 0 := by
  refine ⟨evenDim_spec (frame.width_chars * atlas.cell_width) hW,
    evenDim_spec (frame.height_chars * atlas.cell_height) hH, ?_⟩
  have hinit : (List.replicate
      (wrap32 (renderPixelW frame atlas * renderPixelH frame atlas * 3))
      (0 : Nat)).length =
      renderPixelW frame atlas * renderPixelH frame atlas * 3 := by
    rw [List.length_replicate]
    unfold wrap32
    exact Nat.mod_eq_of_lt hov
  obtain ⟨buf, hsome, hlen, hpres⟩ :=
    renderLoop_rows atlas useColors frame.rgb_colors
      (renderPixelW frame atlas) (renderPixelH frame atlas)
      frame.width_chars frame.height_chars hov hatlas hw32 hh32
      (padProt frame atlas) (padProt_safe frame atlas hW hH hov)
      rows 0 0 _ hwf (by omega) hinit
  refine ⟨buf, ?_, ?_⟩
  · show renderLoop atlas useColors frame.rgb_colors
      (renderPixelW frame atlas) (renderPixelH frame atlas)
      frame.ascii_text 0 0 0
      (List.replicate
        (wrap32 (renderPixelW frame atlas * renderPixelH frame atlas * 3))
        0) = some buf
    rw [htext]
    exact hsome
  · intro px py o hpx hpy ho hside
    rw [hpres _ ⟨px, py, o, hpx, hpy, ho, hside, rfl⟩,
      show wrap32 (renderPixelW frame atlas * renderPixelH frame atlas * 3) =
        renderPixelW frame atlas * renderPixelH frame atlas * 3 from
        Nat.mod_eq_of_lt hov]
    exact List.getElem?_replicate_of_lt (rgb_offset_lt hpx hpy ho)

/-- Witness for C7 at a concrete 1×1 frame and 1×1-glyph atlas, whose
rendered 2×2 buffer has one padding column and one padding row. -/
theorem casciiC7_witness :
    (Even (renderPixelW witFrameC7 witAtlasC7) ∧
      witFrameC7.width_chars * witAtlasC7.cell_width ≤
        renderPixelW witFrameC7 witAtlasC7 ∧
      ∀ m, Even m → witFrameC7.width_chars * witAtlasC7.cell_width ≤ m →
        renderPixelW witFrameC7 witAtlasC7 ≤ m) ∧
    (Even (renderPixelH witFrameC7 witAtlasC7) ∧
      witFrameC7.height_chars * witAtlasC7.cell_height ≤
        renderPixelH witFrameC7 witAtlasC7 ∧
      ∀ m, Even m → witFrameC7.height_chars * witAtlasC7.cell_height ≤ m →
        renderPixelH witFrameC7 witAtlasC7 ≤ m) ∧
    ∃ buf, render_ascii_frame_to_rgb witFrameC7 witAtlasC7 true = some buf ∧
      ∀ px py o, px < renderPixelW witFrameC7 witAtlasC7 →
        py < renderPixelH witFrameC7 witAtlasC7 → o < 3 →
        (witFrameC7.width_chars * witAtlasC7.cell_width ≤ px ∨
          witFrameC7.height_chars * witAtlasC7.cell_height ≤ py) →
        buf[(py * renderPixelW witFrameC7 witAtlasC7 + px) * 3 + o]? =
          some 0 :=
  casciiC7_amended witFrameC7 witAtlasC7 true [['A']] rfl rfl (by decide)
    (fun byte gb h => by
      have h2 : (if byte = 65 then some (GlyphBitmap.mk [1])
          else none) = some gb := h
      by_cases hb : byte = 65
      · rw [if_pos hb] at h2
        cases h2
        rfl
      · rw [if_neg hb] at h2
        exact Option.noConfusion h2)
    (by decide) (by decide) (by decide) (by decide) (by decide)
